import Mathlib

/-!
Verification of the GoCluster DX-cluster server's spot ingestion and quality
pipeline against its specification.  Go values are shallowly embedded:

* Go strings are lists of rune code points (`GoStr := List Nat`), exactly the
  code-point view Go's `range` iteration and `strings` helpers take on the
  ASCII data handled here (callsigns, mode names, telnet tokens).
* `float64` frequencies, tolerances and skew factors are embedded as exact
  rationals (`ℚ`); the claims under study only compare magnitudes far from
  the edge of float precision.
* `time.Time` values are embedded as integer seconds; Go's zero time is 0.
* Fallible parsing returns `Option`.

Definitions are translated from the Go sources in `spot/mode_alloc.go`,
`rbn/client.go`, `peer/parse.go` and the main pipeline file.  Functions that
the repository only declares or calls (their bodies live outside the provided
sources) are modelled from the specification and say so in their doc comment.
-/

namespace GoCluster

/-- GoStr is a Go string viewed as its sequence of runes (Unicode code
points), each embedded as a natural number. -/
abbrev GoStr := List Nat

/-- cn injects a Lean character literal as a Go rune. -/
def cn (c : Char) : Nat := c.toNat

/-- gs injects a Lean string literal as a Go string. -/
def gs (s : String) : GoStr := s.toList.map Char.toNat

/-- upperRune models Go's `unicode.ToUpper` on the ASCII range. -/
def upperRune (c : Nat) : Nat := if 97 ≤ c ∧ c ≤ 122 then c - 32 else c

/-- goUpper models `strings.ToUpper`. -/
def goUpper (s : GoStr) : GoStr := s.map upperRune

/-- lowerRune models Go's `unicode.ToLower` on the ASCII range. -/
def lowerRune (c : Nat) : Nat := if 65 ≤ c ∧ c ≤ 90 then c + 32 else c

/-- goLower models `strings.ToLower`. -/
def goLower (s : GoStr) : GoStr := s.map lowerRune

/-- isSpaceRune models `unicode.IsSpace` on the whitespace the feeds carry. -/
def isSpaceRune (c : Nat) : Bool :=
  decide (c = 32 ∨ c = 9 ∨ c = 10 ∨ c = 13 ∨ c = 11 ∨ c = 12)

/-- goTrimL drops leading whitespace (the left half of `strings.TrimSpace`). -/
def goTrimL (s : GoStr) : GoStr := s.dropWhile isSpaceRune

/-- goTrimR drops trailing whitespace (the right half of `strings.TrimSpace`). -/
def goTrimR (s : GoStr) : GoStr := (s.reverse.dropWhile isSpaceRune).reverse

/-- goTrim models `strings.TrimSpace`. -/
def goTrim (s : GoStr) : GoStr := goTrimR (goTrimL s)

/-- goTrimSet models `strings.Trim` with a cutset of runes. -/
def goTrimSet (set : GoStr) (s : GoStr) : GoStr :=
  ((s.dropWhile (set.contains ·)).reverse.dropWhile (set.contains ·)).reverse

/-- isDigitRune recognizes an ASCII decimal digit. -/
def isDigitRune (c : Nat) : Bool := decide (48 ≤ c ∧ c ≤ 57)

/-- ratAbs models `math.Abs` on the rational embedding of float64. -/
def ratAbs (q : ℚ) : ℚ := if q < 0 then -q else q

theorem ratAbs_eq_abs (q : ℚ) : ratAbs q = |q| := by
  unfold ratAbs
  split
  · rw [abs_of_neg (by assumption)]
  · rw [abs_of_nonneg (le_of_not_lt (by assumption))]

/-!  Basic facts about the string model, used to prove normalization
idempotence in the mode pipeline. -/

theorem upperRune_upperRune (c : Nat) : upperRune (upperRune c) = upperRune c := by
  unfold upperRune
  by_cases h : 97 ≤ c ∧ c ≤ 122
  · rw [if_pos h, if_neg (by omega : ¬(97 ≤ c - 32 ∧ c - 32 ≤ 122))]
  · rw [if_neg h, if_neg h]

theorem isSpaceRune_upperRune (c : Nat) : isSpaceRune (upperRune c) = isSpaceRune c := by
  unfold upperRune isSpaceRune
  by_cases h : 97 ≤ c ∧ c ≤ 122
  · rw [if_pos h, decide_eq_decide]
    omega
  · rw [if_neg h]

theorem dropWhile_map_of_comm (f : Nat → Nat) (p : Nat → Bool)
    (h : ∀ c, p (f c) = p c) (l : GoStr) :
    (l.map f).dropWhile p = (l.dropWhile p).map f := by
  induction l with
  | nil => rfl
  | cons a l ih =>
    simp only [List.map_cons, List.dropWhile_cons, h a]
    cases hp : p a <;> simp [hp, ih]

theorem dropWhile_dropWhile (p : Nat → Bool) (l : GoStr) :
    (l.dropWhile p).dropWhile p = l.dropWhile p := by
  induction l with
  | nil => rfl
  | cons a l ih =>
    by_cases hp : p a = true
    · simp [List.dropWhile_cons, hp, ih]
    · simp only [Bool.not_eq_true] at hp
      simp [List.dropWhile_cons, hp]

theorem dropWhile_eq_self_of_isPrefix (p : Nat → Bool) (u t : GoStr)
    (hu : u <+: t) (ht : t.dropWhile p = t) : u.dropWhile p = u := by
  cases u with
  | nil => rfl
  | cons a u =>
    obtain ⟨r, hr⟩ := hu
    rw [← hr] at ht
    simp only [List.cons_append, List.dropWhile_cons] at ht ⊢
    by_cases hp : p a = true
    · exfalso
      rw [if_pos hp] at ht
      have hlen := congrArg List.length ht
      have hle := ((List.dropWhile_sublist (l := u ++ r) p).length_le : (List.dropWhile p (u ++ r)).length ≤ (u ++ r).length)
      simp only [List.length_cons, List.length_append] at hlen hle
      omega
    · simp only [Bool.not_eq_true] at hp
      rw [if_neg (by simp [hp])]

/-- Trimmed states that a string carries no leading or trailing whitespace. -/
def Trimmed (u : GoStr) : Prop :=
  u.dropWhile isSpaceRune = u ∧ u.reverse.dropWhile isSpaceRune = u.reverse

theorem goTrimR_isPrefix (t : GoStr) : goTrimR t <+: t := by
  have h := List.dropWhile_suffix (l := t.reverse) isSpaceRune
  unfold goTrimR
  rw [← List.reverse_reverse t]
  exact (List.reverse_prefix).mpr (by simpa using h)

theorem goTrim_trimmed (s : GoStr) : Trimmed (goTrim s) := by
  constructor
  · refine dropWhile_eq_self_of_isPrefix _ _ (goTrimL s) (goTrimR_isPrefix _) ?_
    exact dropWhile_dropWhile _ s
  · unfold goTrim goTrimR
    rw [List.reverse_reverse]
    exact dropWhile_dropWhile _ _

theorem trimmed_goTrim {u : GoStr} (h : Trimmed u) : goTrim u = u := by
  unfold goTrim goTrimR goTrimL
  rw [h.1, h.2, List.reverse_reverse]

theorem trimmed_goUpper {u : GoStr} (h : Trimmed u) : Trimmed (goUpper u) := by
  constructor
  · rw [goUpper, dropWhile_map_of_comm _ _ isSpaceRune_upperRune, h.1]
  · rw [goUpper, ← List.map_reverse, dropWhile_map_of_comm _ _ isSpaceRune_upperRune, h.2,
      List.map_reverse]

theorem goUpper_goUpper (s : GoStr) : goUpper (goUpper s) = goUpper s := by
  unfold goUpper
  rw [List.map_map]
  exact List.map_congr_left fun c _ => upperRune_upperRune c

theorem goTrim_goUpper_goTrim (s : GoStr) :
    goTrim (goUpper (goTrim s)) = goUpper (goTrim s) :=
  trimmed_goTrim (trimmed_goUpper (goTrim_trimmed s))

theorem goUpper_length (s : GoStr) : (goUpper s).length = s.length := by
  simp [goUpper]

/-!  Mode allocation and normalization, translated from `spot/mode_alloc.go`
(the `rbn` package carries a verbatim copy of the same three functions).
The YAML-loaded allocation table enters as an explicit list. -/

/-- ModeAllocation mirrors one band row of the YAML allocation schema. -/
structure ModeAllocation where
  band : GoStr
  lowerKHz : ℚ
  cwEndKHz : ℚ
  upperKHz : ℚ
  voiceMode : GoStr

/-- GuessModeFromAlloc returns the allocated mode for the frequency, scanning
the table rows in order exactly as the Go loop does. -/
def GuessModeFromAlloc : List ModeAllocation → ℚ → GoStr
  | [], _ => []
  | b :: rest, freqKHz =>
    if b.lowerKHz ≤ freqKHz ∧ freqKHz ≤ b.upperKHz then
      if 0 < b.cwEndKHz ∧ freqKHz ≤ b.cwEndKHz then gs "CW"
      else if goTrim b.voiceMode ≠ [] then goUpper (goTrim b.voiceMode)
      else GuessModeFromAlloc rest freqKHz
    else GuessModeFromAlloc rest freqKHz

/-- NormalizeVoiceMode maps generic SSB to LSB/USB depending on frequency. -/
def NormalizeVoiceMode (mode : GoStr) (freqKHz : ℚ) : GoStr :=
  let upper := goUpper (goTrim mode)
  if upper = gs "SSB" then (if 10000 ≤ freqKHz then gs "USB" else gs "LSB") else upper

/-- FinalizeMode harmonizes mode selection using the explicit mode, the
allocation table, and the same defaults as the source. -/
def FinalizeMode (table : List ModeAllocation) (mode : GoStr) (freq : ℚ) : GoStr :=
  let m := NormalizeVoiceMode mode freq
  if m ≠ [] then m
  else
    let alloc := GuessModeFromAlloc table freq
    if alloc ≠ [] then NormalizeVoiceMode alloc freq
    else if 10000 ≤ freq then gs "USB" else gs "CW"

theorem nvm_const (s : GoStr) (f : ℚ) (h1 : goUpper (goTrim s) = s)
    (h2 : s ≠ gs "SSB") : NormalizeVoiceMode s f = s := by
  simp only [NormalizeVoiceMode, h1, if_neg h2]

theorem normalizeVoiceMode_fix (m : GoStr) (f : ℚ) :
    NormalizeVoiceMode (NormalizeVoiceMode m f) f = NormalizeVoiceMode m f := by
  by_cases h : goUpper (goTrim m) = gs "SSB"
  · have hm : NormalizeVoiceMode m f = (if 10000 ≤ f then gs "USB" else gs "LSB") := by
      simp only [NormalizeVoiceMode, h]
      rw [if_pos trivial]
    rw [hm]
    by_cases hf : (10000 : ℚ) ≤ f
    · rw [if_pos hf]
      exact nvm_const _ f (by decide) (by decide)
    · rw [if_neg hf]
      exact nvm_const _ f (by decide) (by decide)
  · have hm : NormalizeVoiceMode m f = goUpper (goTrim m) := by
      simp only [NormalizeVoiceMode, if_neg h]
    rw [hm]
    exact nvm_const _ f (by rw [goTrim_goUpper_goTrim, goUpper_goUpper]) h

theorem guessModeFromAlloc_shape (table : List ModeAllocation) (f : ℚ) :
    GuessModeFromAlloc table f = [] ∨ GuessModeFromAlloc table f = gs "CW" ∨
      ∃ v, GuessModeFromAlloc table f = goUpper (goTrim v) ∧ goTrim v ≠ [] := by
  induction table with
  | nil => exact Or.inl rfl
  | cons b rest ih =>
    unfold GuessModeFromAlloc
    split
    · split
      · exact Or.inr (Or.inl rfl)
      · split
        · right; right; exact ⟨b.voiceMode, rfl, by assumption⟩
        · exact ih
    · exact ih

theorem nvm_ne_nil (s : GoStr) (f : ℚ) (h : goUpper (goTrim s) ≠ []) :
    NormalizeVoiceMode s f ≠ [] := by
  simp only [NormalizeVoiceMode]
  split
  · split <;> decide
  · exact h

theorem finalizeMode_fix (table : List ModeAllocation) (m : GoStr) (f : ℚ) :
    NormalizeVoiceMode (FinalizeMode table m f) f = FinalizeMode table m f ∧
      FinalizeMode table m f ≠ [] := by
  simp only [FinalizeMode]
  split
  · exact ⟨normalizeVoiceMode_fix m f, by assumption⟩
  · split
    · refine ⟨normalizeVoiceMode_fix _ f, ?_⟩
      rcases guessModeFromAlloc_shape table f with h | h | ⟨v, hv, hne⟩
      · exact absurd h (by assumption)
      · rw [h]
        exact nvm_ne_nil _ f (by decide)
      · rw [hv]
        refine nvm_ne_nil _ f ?_
        rw [goTrim_goUpper_goTrim, goUpper_goUpper]
        intro hc
        have hlen := congrArg List.length hc
        rw [goUpper_length] at hlen
        exact hne (List.eq_nil_of_length_eq_zero (by simpa using hlen))
    · split
      · exact ⟨nvm_const _ f (by decide) (by decide), by decide⟩
      · exact ⟨nvm_const _ f (by decide) (by decide), by decide⟩

theorem finalizeMode_of_fix (table : List ModeAllocation) (x : GoStr) (f : ℚ)
    (h1 : NormalizeVoiceMode x f = x) (h2 : x ≠ []) : FinalizeMode table x f = x := by
  simp only [FinalizeMode, h1, if_pos h2]

/-- C9: mode normalization is idempotent.  `FinalizeMode` applied to its own
output (at the same frequency, over any allocation table) returns that output
unchanged. -/
theorem finalizeMode_idempotent (table : List ModeAllocation) (m : GoStr) (f : ℚ) :
    FinalizeMode table (FinalizeMode table m f) f = FinalizeMode table m f := by
  obtain ⟨hfix, hne⟩ := finalizeMode_fix table m f
  exact finalizeMode_of_fix table _ f hfix hne

/-- C4: a generic incoming "SSB" finalizes to "USB" at or above 10000 kHz and
to "LSB" below; an empty incoming mode resolves through the allocation table,
and when the table yields no match it defaults to "USB" at or above 10000 kHz
and to "CW" below. -/
theorem finalizeMode_ssb_empty (table : List ModeAllocation) (f : ℚ) :
    FinalizeMode table (gs "SSB") f = (if 10000 ≤ f then gs "USB" else gs "LSB") ∧
      FinalizeMode table [] f =
        (if GuessModeFromAlloc table f ≠ [] then
          NormalizeVoiceMode (GuessModeFromAlloc table f) f
         else if 10000 ≤ f then gs "USB" else gs "CW") := by
  have hS : NormalizeVoiceMode (gs "SSB") f = (if 10000 ≤ f then gs "USB" else gs "LSB") := by
    simp only [NormalizeVoiceMode]
    rw [show goUpper (goTrim (gs "SSB")) = gs "SSB" from by decide, if_pos rfl]
  have hE : NormalizeVoiceMode [] f = [] := by
    simp only [NormalizeVoiceMode]
    rw [if_neg (by decide)]
    decide
  constructor
  · simp only [FinalizeMode, hS]
    by_cases hf : (10000 : ℚ) ≤ f
    · rw [if_pos hf, if_pos (by decide : (gs "USB" : GoStr) ≠ [])]
    · rw [if_neg hf, if_pos (by decide : (gs "LSB" : GoStr) ≠ [])]
  · simp only [FinalizeMode, hE]
    rw [if_neg (by simp)]

/-!  Confidence labelling, translated from the output pipeline's
`formatConfidence` in the main package. -/

/-- clampPercent models the sequential clamp of the confidence value to
[0, 100] at the top of the Go switch. -/
def clampPercent (p : ℤ) : ℤ :=
  if p < 0 then 0 else if 100 < p then 100 else p

/-- formatConfidence translates the Go label computation: the subject's
confidence percentage is clamped to [0, 100] and bucketed. -/
def formatConfidence (percent : ℤ) (totalReporters : ℤ) (known : Bool) : GoStr :=
  if totalReporters ≤ 1 then (if known then gs "S" else gs "?")
  else if clampPercent percent ≤ 25 then (if known then gs "S" else gs "?")
  else if clampPercent percent ≤ 75 then gs "P"
  else gs "V"

/-- confidenceSpecC5 restates the claim's specification of the confidence
label verbatim, for comparison with the translated code. -/
def confidenceSpecC5 (percent : ℤ) (total : ℤ) (known : Bool) : GoStr :=
  if total ≤ 1 then (if known then gs "S" else gs "?")
  else if percent ≤ 25 then (if known then gs "S" else gs "?")
  else if percent ≤ 75 then gs "P"
  else gs "V"

theorem clampPercent_le_iff (p bound : ℤ) (h0 : 0 ≤ bound) (h100 : bound < 100) :
    clampPercent p ≤ bound ↔ p ≤ bound := by
  unfold clampPercent
  split_ifs <;> omega

/-- C5: the confidence label assigned from (subject confidence, total
reporters, known flag) agrees everywhere with the claim's case table:
"S"/"?" when total ≤ 1 or confidence ≤ 25%, "P" up to 75%, "V" above. -/
theorem formatConfidence_eq_spec (percent total : ℤ) (known : Bool) :
    formatConfidence percent total known = confidenceSpecC5 percent total known := by
  unfold formatConfidence confidenceSpecC5
  simp only [clampPercent_le_iff _ 25 (by norm_num) (by norm_num),
    clampPercent_le_iff _ 75 (by norm_num) (by norm_num)]

/-!  The canonical Spot record.  The Go `spot.Spot` struct itself is not among
the provided sources (only its users are), so the record is modelled from the
specification's data-model section: identity, physical, temporal and label
fields.  The CTY metadata blocks and the derived Band/IsBeacon flags sit
outside every claim under study and are left out. -/

/-- SourceType enumerates the spec's source classes.  (Field access goes
through the lower-case field name `sourceType` because a Lean field cannot
share its type's name.) -/
inductive SourceType where
  | rbn
  | ft8
  | ft4
  | pskReporter
  | upstream
  | manual
  | cluster
deriving DecidableEq, Repr

/-- Spot is the canonical record produced by every ingest path.  Modelled from
the spec: the `spot.Spot` struct body is not among the provided sources. -/
structure Spot where
  DXCall : GoStr
  DECall : GoStr
  Frequency : ℚ
  Mode : GoStr
  Report : ℤ
  HasReport : Bool
  Time : ℤ
  Comment : GoStr
  sourceType : SourceType
  SourceNode : GoStr
  IsHuman : Bool
  Confidence : GoStr
  TTL : Nat
deriving DecidableEq, Repr

/-- NewSpot builds a fresh record carrying the four constructor arguments.
Modelled from the spec: `spot.NewSpot` is absent from the provided sources;
every field a claim touches is overwritten by the callers embedded below. -/
def NewSpot (dx de : GoStr) (freq : ℚ) (mode : GoStr) : Spot :=
  { DXCall := dx, DECall := de, Frequency := freq, Mode := mode,
    Report := 0, HasReport := false, Time := 0, Comment := [],
    sourceType := SourceType.manual, SourceNode := [], IsHuman := false,
    Confidence := [], TTL := 0 }

/-!  Harmonic detection, translated from `HarmonicDetector` in
`spot/mode_alloc.go` (`ShouldDrop`, `detectHarmonic`, `prune`).  Durations are
integer seconds; the per-call entry map is a total function defaulting to the
empty list, exactly the read semantics of a Go `map[string][]harmonicEntry`.
The mode predicate `spot.IsCallCorrectionCandidate` has no body in the
provided sources and enters as the Boolean parameter `cand`. -/

/-- HarmonicSettings mirrors the Go settings struct. -/
structure HarmonicSettings where
  enabled : Bool
  recencyWindow : ℤ
  maxHarmonicMultiple : ℤ
  frequencyToleranceHz : ℚ
  minReportDelta : ℤ
deriving DecidableEq

/-- HarmonicEntry stores a recently seen fundamental for one DX call. -/
structure HarmonicEntry where
  frequency : ℚ
  report : ℤ
  atTime : ℤ
deriving DecidableEq, Repr

/-- pruneEntries keeps entries strictly newer than `now - window`, translating
`prune`'s `entry.at.After(cutoff)` filter. -/
def pruneEntries (window now : ℤ) (l : List HarmonicEntry) : List HarmonicEntry :=
  l.filter (fun e => decide (now - window < e.atTime))

/-- multRange lists the candidate multipliers 2, 3, …, maxMult of the Go
`for mult := 2; mult <= max; mult++` loop (empty when maxMult < 2). -/
def multRange (maxMult : ℤ) : List ℤ :=
  (List.range (maxMult - 1).toNat).map (fun i => (i : ℤ) + 2)

/-- harmonicFreqMatch holds when some allowed integer multiple of the entry
frequency lands within the configured tolerance of the spot frequency. -/
def harmonicFreqMatch (st : HarmonicSettings) (eFreq sFreq : ℚ) : Prop :=
  ∃ m ∈ multRange st.maxHarmonicMultiple,
    ratAbs (eFreq * (m : ℚ) - sFreq) ≤ st.frequencyToleranceHz / 1000

instance (st : HarmonicSettings) (eFreq sFreq : ℚ) :
    Decidable (harmonicFreqMatch st eFreq sFreq) := by
  unfold harmonicFreqMatch
  infer_instance

/-- detectHarmonic walks the entry list in order and returns the frequency of
the first entry whose guards all pass, or 0; a direct translation of the Go
double loop (the recency test does not depend on the multiplier, so the inner
loop succeeds exactly when some multiplier matches and the entry is recent or
has the zero time). -/
def detectHarmonic (st : HarmonicSettings) (s : Spot) : List HarmonicEntry → ℚ
  | [] => 0
  | e :: rest =>
    if e.frequency ≤ 0 ∨ s.Frequency ≤ e.frequency then detectHarmonic st s rest
    else if 0 < st.minReportDelta ∧ e.report - s.Report < st.minReportDelta then
      detectHarmonic st s rest
    else if harmonicFreqMatch st e.frequency s.Frequency ∧
        (e.atTime = 0 ∨ s.Time - e.atTime ≤ st.recencyWindow) then e.frequency
    else detectHarmonic st s rest

/-- ShouldDrop translates `HarmonicDetector.ShouldDrop`: returns the drop
decision, the fundamental frequency (for logging), and the updated per-call
entry state. -/
def ShouldDrop (cand : GoStr → Bool) (st : HarmonicSettings)
    (entries : GoStr → List HarmonicEntry) (s : Spot) (now : ℤ) :
    Bool × ℚ × (GoStr → List HarmonicEntry) :=
  if st.enabled = false then (false, 0, entries)
  else if cand s.Mode = false then (false, 0, entries)
  else
    let call := goUpper (goTrim s.DXCall)
    if call = [] then (false, 0, entries)
    else
      let pruned := pruneEntries st.recencyWindow now (entries call)
      let fundamental := detectHarmonic st s pruned
      if 0 < fundamental then
        (true, fundamental, fun k => if k = call then pruned else entries k)
      else
        (false, 0, fun k =>
          if k = call then pruned ++ [⟨s.Frequency, s.Report, s.Time⟩] else entries k)

/-- harmonicDropCond captures exactly the guards of the Go entry loop: the
report-delta test only applies when MinReportDelta is positive, and an entry
whose timestamp is the zero time passes the recency test unconditionally. -/
def harmonicDropCond (st : HarmonicSettings) (s : Spot) (e : HarmonicEntry) : Prop :=
  0 < e.frequency ∧ e.frequency < s.Frequency ∧
    (0 < st.minReportDelta → st.minReportDelta ≤ e.report - s.Report) ∧
    harmonicFreqMatch st e.frequency s.Frequency ∧
    (e.atTime = 0 ∨ s.Time - e.atTime ≤ st.recencyWindow)

instance (st : HarmonicSettings) (s : Spot) (e : HarmonicEntry) :
    Decidable (harmonicDropCond st s e) := by
  unfold harmonicDropCond
  infer_instance

/-- harmonicClaimCond restates the claim's drop condition as written: the
report delta must always be at least MinReportDelta, and the time delta must
be within the window. -/
def harmonicClaimCond (st : HarmonicSettings) (s : Spot) (e : HarmonicEntry) : Prop :=
  0 < e.frequency ∧ e.frequency < s.Frequency ∧
    st.minReportDelta ≤ e.report - s.Report ∧
    harmonicFreqMatch st e.frequency s.Frequency ∧
    s.Time - e.atTime ≤ st.recencyWindow

instance (st : HarmonicSettings) (s : Spot) (e : HarmonicEntry) :
    Decidable (harmonicClaimCond st s e) := by
  unfold harmonicClaimCond
  infer_instance

theorem detectHarmonic_spec (st : HarmonicSettings) (s : Spot) (l : List HarmonicEntry) :
    (detectHarmonic st s l = 0 ∧ ∀ e ∈ l, ¬ harmonicDropCond st s e) ∨
      (∃ e ∈ l, harmonicDropCond st s e ∧ detectHarmonic st s l = e.frequency ∧
        0 < e.frequency) := by
  induction l with
  | nil =>
    left
    exact ⟨rfl, by simp⟩
  | cons e rest ih =>
    unfold detectHarmonic
    by_cases h1 : e.frequency ≤ 0 ∨ s.Frequency ≤ e.frequency
    · rw [if_pos h1]
      rcases ih with ⟨heq, hall⟩ | ⟨x, hx, hc, heq, hpos⟩
      · left
        refine ⟨heq, ?_⟩
        intro y hy
        rcases List.mem_cons.mp hy with hy | hy
        · subst hy
          intro hc
          rcases h1 with h1 | h1
          · exact absurd hc.1 (by linarith)
          · exact absurd hc.2.1 (by linarith)
        · exact hall y hy
      · right
        exact ⟨x, List.mem_cons_of_mem _ hx, hc, heq, hpos⟩
    · rw [if_neg h1]
      push_neg at h1
      by_cases h2 : 0 < st.minReportDelta ∧ e.report - s.Report < st.minReportDelta
      · rw [if_pos h2]
        rcases ih with ⟨heq, hall⟩ | ⟨x, hx, hc, heq, hpos⟩
        · left
          refine ⟨heq, ?_⟩
          intro y hy
          rcases List.mem_cons.mp hy with hy | hy
          · subst hy
            intro hc
            exact absurd (hc.2.2.1 h2.1) (by omega)
          · exact hall y hy
        · right
          exact ⟨x, List.mem_cons_of_mem _ hx, hc, heq, hpos⟩
      · rw [if_neg h2]
        by_cases h3 : harmonicFreqMatch st e.frequency s.Frequency ∧
            (e.atTime = 0 ∨ s.Time - e.atTime ≤ st.recencyWindow)
        · rw [if_pos h3]
          right
          refine ⟨e, List.mem_cons_self e rest, ?_, rfl, h1.1⟩
          exact ⟨h1.1, h1.2, fun hd => by omega, h3.1, h3.2⟩
        · rw [if_neg h3]
          rcases ih with ⟨heq, hall⟩ | ⟨x, hx, hc, heq, hpos⟩
          · left
            refine ⟨heq, ?_⟩
            intro y hy
            rcases List.mem_cons.mp hy with hy | hy
            · subst hy
              intro hc
              exact h3 ⟨hc.2.2.2.1, hc.2.2.2.2⟩
            · exact hall y hy
          · right
            exact ⟨x, List.mem_cons_of_mem _ hx, hc, heq, hpos⟩

/-- C1 (amended): on an enabled detector, for a correction-eligible spot with
a nonempty normalized DX call, the spot is dropped iff some retained (pruned)
entry for that call passes all code guards: positive entry frequency below the
spot frequency, the report-delta test when MinReportDelta > 0, a multiplier
match within tolerance, and recency (or the zero time).  On a drop the
returned fundamental is such an entry's frequency; otherwise the spot's
(Frequency, Report, Time) is appended as a new entry for the call. -/
theorem shouldDrop_amended (cand : GoStr → Bool) (st : HarmonicSettings)
    (entries : GoStr → List HarmonicEntry) (s : Spot) (now : ℤ)
    (hen : st.enabled = true) (hc : cand s.Mode = true)
    (hcall : goUpper (goTrim s.DXCall) ≠ []) :
    ((ShouldDrop cand st entries s now).1 = true ↔
      ∃ e ∈ pruneEntries st.recencyWindow now (entries (goUpper (goTrim s.DXCall))),
        harmonicDropCond st s e) ∧
    ((ShouldDrop cand st entries s now).1 = true →
      ∃ e ∈ pruneEntries st.recencyWindow now (entries (goUpper (goTrim s.DXCall))),
        harmonicDropCond st s e ∧ (ShouldDrop cand st entries s now).2.1 = e.frequency) ∧
    ((ShouldDrop cand st entries s now).1 = false →
      (ShouldDrop cand st entries s now).2.2 (goUpper (goTrim s.DXCall)) =
        pruneEntries st.recencyWindow now (entries (goUpper (goTrim s.DXCall))) ++
          [⟨s.Frequency, s.Report, s.Time⟩]) := by
  have hres : ShouldDrop cand st entries s now =
      (if 0 < detectHarmonic st s
          (pruneEntries st.recencyWindow now (entries (goUpper (goTrim s.DXCall)))) then
        (true, detectHarmonic st s
          (pruneEntries st.recencyWindow now (entries (goUpper (goTrim s.DXCall)))),
          fun k => if k = goUpper (goTrim s.DXCall) then
            pruneEntries st.recencyWindow now (entries (goUpper (goTrim s.DXCall)))
          else entries k)
      else
        (false, 0, fun k => if k = goUpper (goTrim s.DXCall) then
            pruneEntries st.recencyWindow now (entries (goUpper (goTrim s.DXCall))) ++
              [⟨s.Frequency, s.Report, s.Time⟩]
          else entries k)) := by
    unfold ShouldDrop
    rw [hen, hc]
    rw [if_neg (by simp), if_neg (by simp), if_neg hcall]
  rw [hres]
  rcases detectHarmonic_spec st s
      (pruneEntries st.recencyWindow now (entries (goUpper (goTrim s.DXCall)))) with
    ⟨heq, hall⟩ | ⟨x, hx, hcond, heq, hpos⟩
  · rw [heq, if_neg (by norm_num)]
    refine ⟨?_, ?_, ?_⟩
    · simp only [Bool.false_eq_true, false_iff]
      intro ⟨e, he, hce⟩
      exact hall e he hce
    · intro h
      exact absurd h (by simp)
    · intro _
      simp
  · rw [heq, if_pos hpos]
    refine ⟨?_, ?_, ?_⟩
    · exact iff_of_true rfl ⟨x, hx, hcond⟩
    · intro _
      exact ⟨x, hx, hcond, rfl⟩
    · intro h
      exact absurd h (by simp)

/-- c1Settings is an enabled configuration (window 120 s, multiples up to 4,
25 Hz tolerance, report delta 6) used to witness the amended harmonic claim. -/
def c1Settings : HarmonicSettings :=
  { enabled := true, recencyWindow := 120, maxHarmonicMultiple := 4,
    frequencyToleranceHz := 25, minReportDelta := 6 }

/-- c1Entries holds one retained fundamental for K1ABC. -/
def c1Entries : GoStr → List HarmonicEntry :=
  fun k => if k = gs "K1ABC" then [{ frequency := 7011, report := 20, atTime := 100 }] else []

/-- c1Spot is a CW spot at the second harmonic of the retained fundamental. -/
def c1Spot : Spot :=
  { DXCall := gs "K1ABC", DECall := gs "W2BBB", Frequency := 14022, Mode := gs "CW",
    Report := 10, HasReport := true, Time := 105, Comment := [],
    sourceType := SourceType.rbn, SourceNode := [], IsHuman := false,
    Confidence := [], TTL := 0 }

/-- c1CandCW marks CW as correction-eligible for the harmonic witnesses. -/
def c1CandCW : GoStr → Bool := fun m => decide (m = gs "CW")

/-- Witness for the amended harmonic claim at a concrete drop. -/
theorem shouldDrop_amended_witness :
    ((ShouldDrop c1CandCW c1Settings c1Entries c1Spot 105).1 = true ↔
      ∃ e ∈ pruneEntries c1Settings.recencyWindow 105
          (c1Entries (goUpper (goTrim c1Spot.DXCall))),
        harmonicDropCond c1Settings c1Spot e) ∧
    ((ShouldDrop c1CandCW c1Settings c1Entries c1Spot 105).1 = true →
      ∃ e ∈ pruneEntries c1Settings.recencyWindow 105
          (c1Entries (goUpper (goTrim c1Spot.DXCall))),
        harmonicDropCond c1Settings c1Spot e ∧
          (ShouldDrop c1CandCW c1Settings c1Entries c1Spot 105).2.1 = e.frequency) ∧
    ((ShouldDrop c1CandCW c1Settings c1Entries c1Spot 105).1 = false →
      (ShouldDrop c1CandCW c1Settings c1Entries c1Spot 105).2.2
          (goUpper (goTrim c1Spot.DXCall)) =
        pruneEntries c1Settings.recencyWindow 105
            (c1Entries (goUpper (goTrim c1Spot.DXCall))) ++
          [⟨c1Spot.Frequency, c1Spot.Report, c1Spot.Time⟩]) :=
  shouldDrop_amended c1CandCW c1Settings c1Entries c1Spot 105 rfl (by decide) (by decide)

/-- c1CexSettings sets MinReportDelta to 0, a legal configuration value the
pipeline passes through unchecked; the Go guard then skips the delta test. -/
def c1CexSettings : HarmonicSettings :=
  { enabled := true, recencyWindow := 120, maxHarmonicMultiple := 4,
    frequencyToleranceHz := 25, minReportDelta := 0 }

/-- c1CexEntries retains a fundamental that is 10 dB weaker than the spot. -/
def c1CexEntries : GoStr → List HarmonicEntry :=
  fun k => if k = gs "K1ABC" then [{ frequency := 7011, report := 10, atTime := 100 }] else []

/-- c1CexSpot reports 20 dB, stronger than the retained entry. -/
def c1CexSpot : Spot :=
  { DXCall := gs "K1ABC", DECall := gs "W2BBB", Frequency := 14022, Mode := gs "CW",
    Report := 20, HasReport := true, Time := 105, Comment := [],
    sourceType := SourceType.rbn, SourceNode := [], IsHuman := false,
    Confidence := [], TTL := 0 }

/-- C1 counterexample: with MinReportDelta = 0 the detector drops a spot whose
report exceeds the retained entry's report, yet no retained entry satisfies
the claim's condition `entry.Report − spot.Report ≥ MinReportDelta`
(the delta here is −10). -/
theorem shouldDrop_counterexample :
    (ShouldDrop c1CandCW c1CexSettings c1CexEntries c1CexSpot 105).1 = true ∧
      ¬ ∃ e ∈ pruneEntries c1CexSettings.recencyWindow 105
          (c1CexEntries (goUpper (goTrim c1CexSpot.DXCall))),
        harmonicClaimCond c1CexSettings c1CexSpot e := by
  have hcall : goUpper (goTrim c1CexSpot.DXCall) = gs "K1ABC" := by decide
  have hpr : pruneEntries c1CexSettings.recencyWindow 105
      (c1CexEntries (gs "K1ABC")) = [⟨7011, 10, 100⟩] := by decide
  have hdet : detectHarmonic c1CexSettings c1CexSpot
      [(⟨7011, 10, 100⟩ : HarmonicEntry)] = 7011 := by
    unfold detectHarmonic
    rw [if_neg (by decide), if_neg (by decide), if_pos ?_]
    refine ⟨⟨2, by decide, ?_⟩, by decide⟩
    show ratAbs ((7011 : ℚ) * ((2 : ℤ) : ℚ) - c1CexSpot.Frequency) ≤
      c1CexSettings.frequencyToleranceHz / 1000
    norm_num [ratAbs, c1CexSpot, c1CexSettings]
  constructor
  · unfold ShouldDrop
    rw [if_neg (by decide), if_neg (by decide), if_neg (by rw [hcall]; decide)]
    rw [hcall, hpr]
    simp only [hdet]
    rw [if_pos (by decide : (0 : ℚ) < 7011)]
  · rw [hcall, hpr]
    intro ⟨e, he, hcl⟩
    rw [List.mem_singleton] at he
    subst he
    have hrep := hcl.2.2.1
    revert hrep
    decide

/-!  Frequency averaging decision, translated from the output pipeline
(`processOutputSpots` frequency-averaging block, `frequencyAverageTolerance`,
`shouldAverageFrequency`).  The body of `FrequencyAverager.Average` is not
among the provided sources; its two outputs (window mean, report count) enter
as the parameters `avg` and `reports`, modelled from the spec's description
of the per-call sliding window. -/

/-- SpotPolicy mirrors the spot-policy configuration block. -/
structure SpotPolicy where
  maxAgeSeconds : ℤ
  frequencyAveragingSeconds : ℤ
  frequencyAveragingToleranceHz : ℚ
  frequencyAveragingMinReports : ℤ
deriving DecidableEq

/-- frequencyAverageTolerance falls back to 300 Hz when the configured
tolerance is non-positive, then converts to kHz. -/
def frequencyAverageTolerance (policy : SpotPolicy) : ℚ :=
  (if policy.frequencyAveragingToleranceHz ≤ 0 then 300
   else policy.frequencyAveragingToleranceHz) / 1000

/-- shouldAverageFrequency restricts frequency averaging to CW and RTTY. -/
def shouldAverageFrequency (s : Spot) : Bool :=
  decide (goUpper (goTrim s.Mode) = gs "CW" ∨ goUpper (goTrim s.Mode) = gs "RTTY")

/-- goRound models `math.Round` (round half away from zero). -/
def goRound (x : ℚ) : ℤ := if 0 ≤ x then ⌊x + 1 / 2⌋ else ⌈x - 1 / 2⌉

/-- freqAvgStep is the frequency-averaging block of `processOutputSpots`,
applied to one spot with the averager's outputs in hand. -/
def freqAvgStep (policy : SpotPolicy) (avg : ℚ) (reports : ℤ) (s : Spot) : Spot :=
  if shouldAverageFrequency s then
    if policy.frequencyAveragingMinReports ≤ reports ∧
        frequencyAverageTolerance policy ≤
          ratAbs ((goRound (avg * 10) : ℚ) / 10 - s.Frequency) then
      { s with Frequency := (goRound (avg * 10) : ℚ) / 10 }
    else s
  else s

theorem frequencyAverageTolerance_pos (policy : SpotPolicy) :
    0 < frequencyAverageTolerance policy := by
  unfold frequencyAverageTolerance
  split
  · norm_num
  · have h : ¬ policy.frequencyAveragingToleranceHz ≤ 0 := by assumption
    have := lt_of_not_le h
    positivity

/-- C6: a CW or RTTY spot's frequency is rewritten to the window mean rounded
to 0.1 kHz exactly when the window's report count reaches the policy minimum
and the rounded mean differs from the spot frequency by at least the
configured tolerance (0.3 kHz when unconfigured or non-positive); otherwise
the frequency is left unchanged, and the rewrite really changes it. -/
theorem freqAvgStep_claim (policy : SpotPolicy) (avg : ℚ) (reports : ℤ) (s : Spot)
    (hmode : shouldAverageFrequency s = true) :
    ((freqAvgStep policy avg reports s).Frequency =
      (if policy.frequencyAveragingMinReports ≤ reports ∧
          frequencyAverageTolerance policy ≤
            ratAbs ((goRound (avg * 10) : ℚ) / 10 - s.Frequency) then
        (goRound (avg * 10) : ℚ) / 10 else s.Frequency)) ∧
    ((freqAvgStep policy avg reports s).Frequency ≠ s.Frequency ↔
      (policy.frequencyAveragingMinReports ≤ reports ∧
        frequencyAverageTolerance policy ≤
          ratAbs ((goRound (avg * 10) : ℚ) / 10 - s.Frequency))) := by
  unfold freqAvgStep
  rw [if_pos hmode]
  by_cases hcond : policy.frequencyAveragingMinReports ≤ reports ∧
      frequencyAverageTolerance policy ≤
        ratAbs ((goRound (avg * 10) : ℚ) / 10 - s.Frequency)
  · rw [if_pos hcond, if_pos hcond]
    refine ⟨rfl, iff_of_true ?_ hcond⟩
    show (goRound (avg * 10) : ℚ) / 10 ≠ s.Frequency
    intro heq
    have htol := frequencyAverageTolerance_pos policy
    rw [heq] at hcond
    have : ratAbs (s.Frequency - s.Frequency) = 0 := by
      rw [sub_self]
      norm_num [ratAbs]
    rw [this] at hcond
    linarith [hcond.2]
  · rw [if_neg hcond, if_neg hcond]
    exact ⟨rfl, iff_of_false (by simp) hcond⟩

/-- c6Policy requires three reports and uses a 300 Hz tolerance. -/
def c6Policy : SpotPolicy :=
  { maxAgeSeconds := 0, frequencyAveragingSeconds := 45,
    frequencyAveragingToleranceHz := 300, frequencyAveragingMinReports := 3 }

/-- c6Spot is a CW spot at 7010 kHz. -/
def c6Spot : Spot :=
  { DXCall := gs "K1ABC", DECall := gs "W2BBB", Frequency := 7010, Mode := gs "CW",
    Report := 10, HasReport := true, Time := 0, Comment := [],
    sourceType := SourceType.rbn, SourceNode := [], IsHuman := false,
    Confidence := [], TTL := 0 }

/-- Witness for the frequency-averaging claim at a concrete CW spot. -/
theorem freqAvgStep_claim_witness :
    ((freqAvgStep c6Policy (70108 / 10) 5 c6Spot).Frequency =
      (if c6Policy.frequencyAveragingMinReports ≤ 5 ∧
          frequencyAverageTolerance c6Policy ≤
            ratAbs ((goRound ((70108 / 10) * 10) : ℚ) / 10 - c6Spot.Frequency) then
        (goRound ((70108 / 10 : ℚ) * 10) : ℚ) / 10 else c6Spot.Frequency)) ∧
    ((freqAvgStep c6Policy (70108 / 10) 5 c6Spot).Frequency ≠ c6Spot.Frequency ↔
      (c6Policy.frequencyAveragingMinReports ≤ 5 ∧
        frequencyAverageTolerance c6Policy ≤
          ratAbs ((goRound ((70108 / 10 : ℚ) * 10) : ℚ) / 10 - c6Spot.Frequency))) :=
  freqAvgStep_claim c6Policy (70108 / 10) 5 c6Spot (by decide)

/-!  RBN time resolution, translated from `parseTimeFromRBN` in
`rbn/client.go`.  A `time.Time` is embedded as integer seconds; "today's UTC
date" for an instant `now` is the day containing `now`, whose midnight is
`now - now % 86400` (Go's UTC calendar has no leap seconds, so UTC days are a
uniform 86400 s apart in this view). -/

/-- goParseDigits parses a nonempty all-digit string to a natural number. -/
def goParseDigits (s : GoStr) : Option Nat :=
  if s ≠ [] ∧ s.all isDigitRune then
    some (s.foldl (fun a c => a * 10 + (c - 48)) 0)
  else none

/-- goAtoi models `strconv.Atoi`: an optional sign followed by digits.  (The
64-bit range check never binds on the 2-digit fields parsed here.) -/
def goAtoi (s : GoStr) : Option ℤ :=
  match s with
  | [] => none
  | c :: rest =>
    if c = cn '-' then (goParseDigits rest).map (fun n => -(n : ℤ))
    else if c = cn '+' then (goParseDigits rest).map (fun n => (n : ℤ))
    else (goParseDigits s).map (fun n => (n : ℤ))

/-- rbnResolve is the date-combination and day-rolling tail of
`parseTimeFromRBN` once hour and minute have parsed. -/
def rbnResolve (now hour minute : ℤ) : ℤ :=
  let dayStart := now - now % 86400
  let spotTime := dayStart + hour * 3600 + minute * 60
  let s1 := if 43200 < spotTime - now then spotTime - 86400 else spotTime
  if 43200 < now - s1 then s1 + 86400 else s1

/-- parseTimeFromRBN combines an HHMMZ token with the current day, then rolls
by one day when the result is more than 12 h from `now`; invalid tokens fall
back to `now` exactly as the Go code falls back to `time.Now()`. -/
def parseTimeFromRBN (now : ℤ) (timeStr : GoStr) : ℤ :=
  match timeStr with
  | [h1, h2, m1, m2, z] =>
    if z = cn 'Z' then
      match goAtoi [h1, h2], goAtoi [m1, m2] with
      | some hour, some minute => rbnResolve now hour minute
      | _, _ => now
    else now
  | _ => now

/-- rbnTimeSpecC7 restates the claim: combine today's UTC date with the
token's hour and minute; subtract a day when more than 12 h in the future,
add a day when more than 12 h in the past. -/
def rbnTimeSpecC7 (now hour minute : ℤ) : ℤ :=
  let base := (now - now % 86400) + hour * 3600 + minute * 60
  if 43200 < base - now then base - 86400
  else if 43200 < now - base then base + 86400
  else base

theorem goAtoi_two_digits (a b : Nat) (ha : 48 ≤ a ∧ a ≤ 57) (hb : 48 ≤ b ∧ b ≤ 57) :
    goAtoi [a, b] = some (((a - 48) * 10 + (b - 48) : Nat) : ℤ) := by
  have hminus : cn '-' = 45 := rfl
  have hplus : cn '+' = 43 := rfl
  simp only [goAtoi, hminus, hplus]
  rw [if_neg (by omega), if_neg (by omega)]
  simp only [goParseDigits]
  rw [if_pos ⟨by simp, by simp [isDigitRune]; omega⟩]
  have h : ((0 * 10 + (a - 48)) * 10 + (b - 48) : Nat) = (a - 48) * 10 + (b - 48) := by omega
  simp only [List.foldl, Option.map_some, h]
  rfl

/-- C7: a well-formed HHMMZ token resolves to today's UTC date combined with
the token's hour and minute (seconds zero); an instant more than 12 h after
`now` rolls back one day and one more than 12 h before `now` rolls forward
one day. -/
theorem parseTimeFromRBN_claim (now : ℤ) (h1 h2 m1 m2 : Nat)
    (hd1 : 48 ≤ h1 ∧ h1 ≤ 57) (hd2 : 48 ≤ h2 ∧ h2 ≤ 57)
    (hd3 : 48 ≤ m1 ∧ m1 ≤ 57) (hd4 : 48 ≤ m2 ∧ m2 ≤ 57)
    (hhour : (h1 - 48) * 10 + (h2 - 48) ≤ 23) (hmin : (m1 - 48) * 10 + (m2 - 48) ≤ 59) :
    parseTimeFromRBN now [h1, h2, m1, m2, cn 'Z'] =
      rbnTimeSpecC7 now (((h1 - 48) * 10 + (h2 - 48) : Nat) : ℤ)
        (((m1 - 48) * 10 + (m2 - 48) : Nat) : ℤ) := by
  simp only [parseTimeFromRBN]
  rw [if_pos trivial, goAtoi_two_digits h1 h2 hd1 hd2, goAtoi_two_digits m1 m2 hd3 hd4]
  show rbnResolve now _ _ = _
  simp only [rbnResolve, rbnTimeSpecC7]
  have hmod1 : 0 ≤ now % 86400 := Int.emod_nonneg now (by norm_num)
  have hmod2 : now % 86400 < 86400 := Int.emod_lt_of_pos now (by norm_num)
  split_ifs <;> omega

/-- Witness for the time-resolution claim on the token 0535Z. -/
theorem parseTimeFromRBN_claim_witness :
    parseTimeFromRBN 1000000 [48, 53, 51, 53, cn 'Z'] =
      rbnTimeSpecC7 1000000 (((48 - 48) * 10 + (53 - 48) : Nat) : ℤ)
        (((51 - 48) * 10 + (53 - 48) : Nat) : ℤ) :=
  parseTimeFromRBN_claim 1000000 48 53 51 53 (by decide) (by decide) (by decide)
    (by decide) (by decide) (by decide)

/-!  Call distance for the correction engine.  The bodies of `callDistance`
and the weighted distances live outside the provided sources (only
`correction_test.go` exercises them), so this section is modelled from the
spec: plain Levenshtein between upper-cased callsigns; under CW with the
"morse" model every character carries its Morse element count as a weight and
substitutions/insertions cost the sum of the weights involved; under RTTY
with the "baudot" model an analogous per-character weighting applies (the
spec fixes no exact Baudot table; ITA2 bit counts are used, and the claims
depend only on every weight being at least 1); anything else is plain. -/

/-- wlev is a weighted Levenshtein distance with per-character delete, insert
and substitute costs (matches are free). -/
def wlev (d i : Nat → Nat) (sub : Nat → Nat → Nat) : GoStr → GoStr → Nat
  | [], [] => 0
  | [], y :: ys => i y + wlev d i sub [] ys
  | x :: xs, [] => d x + wlev d i sub xs []
  | x :: xs, y :: ys =>
    if x = y then wlev d i sub xs ys
    else min (d x + wlev d i sub xs (y :: ys))
      (min (i y + wlev d i sub (x :: xs) ys) (sub x y + wlev d i sub xs ys))
termination_by a b => a.length + b.length
decreasing_by all_goals simp <;> omega

theorem wlev_mono (d1 i1 s1 : _) (d2 : Nat → Nat) (i2 : Nat → Nat) (s2 : Nat → Nat → Nat)
    (hd : ∀ x, d1 x ≤ d2 x) (hi : ∀ y, i1 y ≤ i2 y) (hs : ∀ x y, s1 x y ≤ s2 x y)
    (xs ys : GoStr) : wlev d1 i1 s1 xs ys ≤ wlev d2 i2 s2 xs ys := by
  induction xs, ys using wlev.induct d1 i1 s1 with
  | case1 => simp [wlev]
  | case2 y ys ih => simp only [wlev]; exact Nat.add_le_add (hi y) ih
  | case3 x xs ih => simp only [wlev]; exact Nat.add_le_add (hd x) ih
  | case4 xs y ys ih =>
    simp only [wlev, if_pos rfl]
    exact ih
  | case5 x xs y ys hne ih1 ih2 ih3 =>
    simp only [wlev, if_neg hne]
    refine le_min (le_trans (min_le_left _ _) (Nat.add_le_add (hd x) ih1)) ?_
    refine le_min ?_ ?_
    · exact le_trans (le_trans (min_le_right _ _) (min_le_left _ _)) (Nat.add_le_add (hi y) ih2)
    · exact le_trans (le_trans (min_le_right _ _) (min_le_right _ _)) (Nat.add_le_add (hs x y) ih3)

/-- levPlain is the standard (unit-cost) Levenshtein distance. -/
def levPlain (a b : GoStr) : Nat :=
  wlev (fun _ => 1) (fun _ => 1) (fun _ _ => 1) a b

/-- morseExtra is one less than the Morse element (dit/dah) count of a
character; unknown runes get a neutral positive weight. -/
def morseExtra (c : Nat) : Nat :=
  if c = 69 ∨ c = 84 then 0
  else if c = 65 ∨ c = 73 ∨ c = 77 ∨ c = 78 then 1
  else if c = 68 ∨ c = 71 ∨ c = 75 ∨ c = 79 ∨ c = 82 ∨ c = 83 ∨ c = 85 ∨ c = 87 then 2
  else if 48 ≤ c ∧ c ≤ 57 then 4
  else if c = 47 then 4
  else 3

/-- morseWeight is the Morse element count, bounded below by one. -/
def morseWeight (c : Nat) : Nat := 1 + morseExtra c

/-- baudotExtra is one less than the ITA2 mark-bit count of a character
(figure-shift codes for digits and stroke); unknown runes get a neutral
positive weight. -/
def baudotExtra (c : Nat) : Nat :=
  if c = 69 ∨ c = 84 ∨ c = 51 ∨ c = 53 then 0
  else if c = 65 ∨ c = 68 ∨ c = 72 ∨ c = 73 ∨ c = 76 ∨ c = 78 ∨ c = 79 ∨ c = 82 ∨
      c = 83 ∨ c = 90 ∨ c = 52 ∨ c = 56 ∨ c = 57 then 1
  else if c = 66 ∨ c = 67 ∨ c = 70 ∨ c = 71 ∨ c = 74 ∨ c = 77 ∨ c = 80 ∨ c = 85 ∨
      c = 87 ∨ c = 89 ∨ c = 50 ∨ c = 54 ∨ c = 55 ∨ c = 48 then 2
  else if c = 75 ∨ c = 81 ∨ c = 86 ∨ c = 88 ∨ c = 49 ∨ c = 47 then 3
  else 1

/-- baudotWeight is the ITA2 bit-count weight, bounded below by one. -/
def baudotWeight (c : Nat) : Nat := 1 + baudotExtra c

/-- morseDistance weighs every edit by the Morse element counts involved. -/
def morseDistance (a b : GoStr) : Nat :=
  wlev morseWeight morseWeight (fun x y => morseWeight x + morseWeight y) a b

/-- baudotDistance weighs every edit by the Baudot bit counts involved. -/
def baudotDistance (a b : GoStr) : Nat :=
  wlev baudotWeight baudotWeight (fun x y => baudotWeight x + baudotWeight y) a b

/-- callDistance selects the distance model from the mode and the configured
models, falling back to plain Levenshtein.  Modelled from the spec (the Go
body is not among the provided sources; `correction_test.go` pins the
toggles: morse applies only on CW with model "morse", baudot only on RTTY
with model "baudot", everything else is plain). -/
def callDistance (a b mode cwModel rttyModel : GoStr) : Nat :=
  if mode = gs "CW" ∧ cwModel = gs "morse" then morseDistance (goUpper a) (goUpper b)
  else if mode = gs "RTTY" ∧ rttyModel = gs "baudot" then
    baudotDistance (goUpper a) (goUpper b)
  else levPlain (goUpper a) (goUpper b)

theorem one_le_morseWeight (c : Nat) : 1 ≤ morseWeight c := Nat.le_add_right 1 _

theorem one_le_baudotWeight (c : Nat) : 1 ≤ baudotWeight c := Nat.le_add_right 1 _

/-- C8: with mode CW and the morse model, callDistance dominates the plain
Levenshtein distance on the same (upper-cased) pair; with mode RTTY and the
baudot model likewise; and for any mode other than CW and RTTY, callDistance
is exactly the plain distance regardless of the configured models. -/
theorem callDistance_ordering :
    (∀ a b r, levPlain (goUpper a) (goUpper b) ≤
      callDistance a b (gs "CW") (gs "morse") r) ∧
    (∀ a b c, levPlain (goUpper a) (goUpper b) ≤
      callDistance a b (gs "RTTY") c (gs "baudot")) ∧
    (∀ a b mode m r, mode ≠ gs "CW" → mode ≠ gs "RTTY" →
      callDistance a b mode m r = levPlain (goUpper a) (goUpper b)) := by
  refine ⟨?_, ?_, ?_⟩
  · intro a b r
    unfold callDistance
    rw [if_pos ⟨rfl, rfl⟩]
    exact wlev_mono _ _ _ _ _ _ one_le_morseWeight one_le_morseWeight
      (fun x y => by have := one_le_morseWeight x; have := one_le_morseWeight y; omega) _ _
  · intro a b c
    unfold callDistance
    rw [if_neg (by intro h; exact absurd h.1 (by decide))]
    rw [if_pos ⟨rfl, rfl⟩]
    exact wlev_mono _ _ _ _ _ _ one_le_baudotWeight one_le_baudotWeight
      (fun x y => by have := one_le_baudotWeight x; have := one_le_baudotWeight y; omega) _ _
  · intro a b mode m r hcw hrtty
    unfold callDistance
    rw [if_neg (by intro h; exact hcw h.1), if_neg (by intro h; exact hrtty h.1)]

/-- Witness: a non-CW/RTTY mode uses the plain distance at concrete inputs. -/
theorem callDistance_ordering_witness :
    callDistance (gs "K1ABC") (gs "K1A8C") (gs "SSB") (gs "morse") (gs "baudot") =
      levPlain (goUpper (gs "K1ABC")) (goUpper (gs "K1A8C")) :=
  callDistance_ordering.2.2 (gs "K1ABC") (gs "K1A8C") (gs "SSB") (gs "morse")
    (gs "baudot") (by decide) (by decide)

/-!  The line-oriented wire parser, translated from `parseSpot` and its
helpers in `rbn/client.go`.  What is kept out, and why it cannot affect the
frequency claims under study: the comment assembly (`buildComment`) and the
trailing SNR-regex fallback only fill the Comment/Report fields after every
frequency decision is made, and the callsign-normalization cache is a pure
memoization of `normalizeRBNCallsign`.  The CTY lookup, the FCC license
check and the skew table are external collaborators and enter as function
parameters.  The Aho-Corasick keyword scan is modelled by its observable
behaviour: `classifyToken` matches the token's trimmed span in the
upper-cased line against pattern endpoints, which succeeds exactly when the
token's upper-cased text equals one of the pattern words (and the
`classifyTokenWithFallback` token-local rescan recognizes exactly the
same set). -/

/-- digitsVal reads an all-digit string as a natural number. -/
def digitsVal (s : GoStr) : Nat := s.foldl (fun a c => a * 10 + (c - 48)) 0

/-- goParseFloatParts parses the decimal-token grammar of
`strconv.ParseFloat` (optional sign, digits with an optional point, optional
decimal exponent), returning the sign, integer digits, fraction digits and
exponent; the hex/Inf/NaN/underscore forms never produced by skimmer feeds
are omitted. -/
def goParseFloatParts (s : GoStr) : Option (Bool × GoStr × GoStr × ℤ) :=
  let signSplit : Bool × GoStr :=
    match s with
    | c :: rest =>
      if c = cn '+' then (false, rest)
      else if c = cn '-' then (true, rest)
      else (false, s)
    | [] => (false, [])
  let neg := signSplit.1
  let s1 := signSplit.2
  let ip := s1.takeWhile isDigitRune
  let s2 := s1.dropWhile isDigitRune
  let fracSplit : GoStr × GoStr :=
    match s2 with
    | c :: rest =>
      if c = cn '.' then (rest.takeWhile isDigitRune, rest.dropWhile isDigitRune)
      else ([], s2)
    | [] => ([], [])
  let fp := fracSplit.1
  let s3 := fracSplit.2
  if ip ++ fp = [] then none
  else
    match s3 with
    | [] => some (neg, ip, fp, 0)
    | e :: rest =>
      if e = cn 'e' ∨ e = cn 'E' then
        let expSplit : ℤ × GoStr :=
          match rest with
          | c :: rr =>
            if c = cn '+' then (1, rr)
            else if c = cn '-' then (-1, rr)
            else (1, rest)
          | [] => (1, [])
        if expSplit.2 ≠ [] ∧ expSplit.2.all isDigitRune then
          some (neg, ip, fp, expSplit.1 * (digitsVal expSplit.2 : ℤ))
        else none
      else none

/-- floatVal is the exact rational value of a parsed decimal token. -/
def floatVal (neg : Bool) (ip fp : GoStr) (ex : ℤ) : ℚ :=
  let mant : ℚ := (digitsVal (ip ++ fp) : ℚ) / (10 : ℚ) ^ fp.length
  let v := mant * (10 : ℚ) ^ ex
  if neg then -v else v

/-- goParseFloat models `strconv.ParseFloat` on plain decimal tokens; the
value is exact as a rational. -/
def goParseFloat (s : GoStr) : Option ℚ :=
  (goParseFloatParts s).map (fun p => floatVal p.1 p.2.1 p.2.2.1 p.2.2.2)

/-- parseFrequencyCandidate accepts a numeric token inside the RBN dial
range [100, 3000000] kHz. -/
def parseFrequencyCandidate (tok : GoStr) : Option ℚ :=
  if tok = [] then none
  else match goParseFloat tok with
    | none => none
    | some f => if f < 100 ∨ 3000000 < f then none else some f

/-- rbnParseSignedInt is `rbn.parseSignedInt`: a dot-free integer token in
[-200, 200]. -/
def rbnParseSignedInt (tok : GoStr) : Option ℤ :=
  if tok = [] then none
  else if tok.contains (cn '.') then none
  else match goAtoi tok with
    | none => none
    | some v => if v < -200 ∨ 200 < v then none else some v

/-- parseInlineSNR recognizes a glued "<num>dB" token. -/
def parseInlineSNR (tok : GoStr) : Option ℤ :=
  let lower := goLower (goTrim tok)
  if (gs "db").isSuffixOf lower = false then none
  else
    let numStr := lower.take (lower.length - 2)
    if numStr.contains (cn '.') ∨ numStr = [] then none
    else match goAtoi numStr with
      | none => none
      | some v => if v < -200 ∨ 200 < v then none else some v

/-- isTimeToken recognizes an HHMMZ token (four digits and a Z). -/
def isTimeToken (tok : GoStr) : Bool :=
  match tok with
  | [a, b, c, d, z] =>
    isDigitRune a && isDigitRune b && isDigitRune c && isDigitRune d && decide (z = cn 'Z')
  | _ => false

/-- peelTimeTok splits a leading HHMMZ prefix off a token (`peelTimePrefix`
in the source). -/
def peelTimeTok (tok : GoStr) : GoStr × GoStr :=
  if tok.length < 5 then ([], tok)
  else
    let p := tok.take 5
    if isTimeToken p then (p, goTrim (tok.drop 5)) else ([], tok)

/-- SpotToken carries a token's raw text, the punctuation-trimmed form, and
its upper-cased variant (the positional span fields only feed the match
index, which is modelled by whole-token keyword lookup). -/
structure SpotToken where
  raw : GoStr
  clean : GoStr
  upper : GoStr
deriving DecidableEq, Repr

/-- isSpTab matches the two separators of `tokenizeSpotLine`. -/
def isSpTab (c : Nat) : Bool := decide (c = 32 ∨ c = 9)

/-- tokPunct is the edge punctuation stripped from each token. -/
def tokPunct : GoStr := gs ",;:!."

/-- splitAux scans the line once, collecting maximal runs of non-separator
runes, exactly the two inner loops of `tokenizeSpotLine`. -/
def splitAux : GoStr → GoStr → List GoStr
  | [], acc => if acc = [] then [] else [acc.reverse]
  | c :: rest, acc =>
    if isSpTab c then (if acc = [] then splitAux rest [] else acc.reverse :: splitAux rest [])
    else splitAux rest (c :: acc)

/-- splitSpotFields returns the whitespace-separated raw tokens of a line. -/
def splitSpotFields (l : GoStr) : List GoStr := splitAux l []

/-- mkSpotToken trims edge punctuation and uppercases, as the tokenizer does
for each raw token. -/
def mkSpotToken (raw : GoStr) : SpotToken :=
  let clean := goTrimSet tokPunct raw
  { raw := raw, clean := clean, upper := goUpper clean }

/-- tokenizeSpotLine is the wire tokenizer. -/
def tokenizeSpotLine (line : GoStr) : List SpotToken :=
  (splitSpotFields line).map mkSpotToken

/-- ACKind tags the structural keyword classes of the keyword scanner. -/
inductive ACKind where
  | dx
  | de
  | mode
  | db
  | wpm
deriving DecidableEq, Repr

/-- keywordPatterns lists the scanner's patterns with their mode payloads,
in source order. -/
def keywordPatterns : List (GoStr × ACKind × GoStr) :=
  [(gs "DX", ACKind.dx, []), (gs "DE", ACKind.de, []),
   (gs "DB", ACKind.db, []), (gs "WPM", ACKind.wpm, []),
   (gs "CW", ACKind.mode, gs "CW"), (gs "CWT", ACKind.mode, gs "CW"),
   (gs "RTTY", ACKind.mode, gs "RTTY"),
   (gs "FT8", ACKind.mode, gs "FT8"), (gs "FT-8", ACKind.mode, gs "FT8"),
   (gs "FT4", ACKind.mode, gs "FT4"), (gs "FT-4", ACKind.mode, gs "FT4"),
   (gs "MSK", ACKind.mode, gs "MSK144"), (gs "MSK144", ACKind.mode, gs "MSK144"),
   (gs "MSK-144", ACKind.mode, gs "MSK144"),
   (gs "USB", ACKind.mode, gs "USB"), (gs "LSB", ACKind.mode, gs "LSB"),
   (gs "SSB", ACKind.mode, gs "SSB")]

/-- classifyKeyword is the observable behaviour of
`classifyTokenWithFallback`: a token classifies iff its upper-cased text is a
whole pattern word. -/
def classifyKeyword (upper : GoStr) : Option (ACKind × GoStr) :=
  (keywordPatterns.find? (fun p => decide (p.1 = upper))).map (fun p => p.2)

/-- extractCallAndFreq splits token 2 on its first colon and tries the
remainder as a frequency. -/
def extractCallAndFreq (tok : SpotToken) : GoStr × Option ℚ :=
  if tok.clean = [] then ([], none)
  else match tok.raw.findIdx? (fun c => decide (c = cn ':')) with
    | none => (tok.clean, none)
    | some i =>
      let callPart := goTrim (tok.raw.take i)
      let remainder := goTrim (goTrimSet (gs ",;:") (tok.raw.drop (i + 1)))
      (callPart, parseFrequencyCandidate remainder)

/-- IsValidCallsign is modelled from the spec's glossary: upper-case, 3 to 10
characters drawn from letters, digits, stroke and hyphen, with at least one
digit and one letter (the Go implementation is not among the provided
sources). -/
def IsValidCallsign (s : GoStr) : Bool :=
  decide (3 ≤ s.length ∧ s.length ≤ 10) &&
  s.all (fun c => decide ((65 ≤ c ∧ c ≤ 90) ∨ (48 ≤ c ∧ c ≤ 57) ∨ c = 47 ∨ c = 45)) &&
  s.any (fun c => decide (48 ≤ c ∧ c ≤ 57)) &&
  s.any (fun c => decide (65 ≤ c ∧ c ≤ 90))

/-- NormalizeCallsign is modelled from the spec's invariant that calls are
stored upper-case and trimmed (the Go body is not among the provided
sources; spotter SSIDs are preserved, per the `normalizeSpotter` comment). -/
def NormalizeCallsign (s : GoStr) : GoStr := goUpper (goTrim s)

/-- normalizeRBNCallsign removes the SSID from skimmer calls carrying the
`-#` marker, translated from the source (the memoization cache is a pure
cache and is dropped). -/
def normalizeRBNCallsign (call : GoStr) : GoStr :=
  if (gs "-#").isSuffixOf call = false then NormalizeCallsign call
  else
    let withoutHash := call.take (call.length - 2)
    let parts := withoutHash.splitOn (cn '-')
    if 1 < parts.length then (List.intercalate (gs "-") parts.dropLast) ++ gs "-#"
    else call

theorem parseFrequencyCandidate_range (tok : GoStr) (f : ℚ)
    (h : parseFrequencyCandidate tok = some f) : 100 ≤ f ∧ f ≤ 3000000 := by
  unfold parseFrequencyCandidate at h
  split at h
  · exact absurd h (by simp)
  · split at h
    · exact absurd h (by simp)
    · split at h
      · exact absurd h (by simp)
      · rename_i g hg hcond
        rw [Option.some_inj] at h
        subst h
        push_neg at hcond
        exact hcond

/-- PState is the mutable state of `parseSpot`'s token loop.  `pending`
carries the clean text and value of the one-token pending-number slot. -/
structure PState where
  freq : ℚ
  hasFreq : Bool
  dxCall : GoStr
  mode : GoStr
  timeToken : GoStr
  wpmStr : GoStr
  report : ℤ
  hasReport : Bool
  pending : Option (GoStr × ℤ)
deriving DecidableEq, Repr

/-- parseStepTail is the tail of one loop iteration after the keyword
switch: the inline SNR check, the DX-callsign capture, and the
pending-number capture, each of which ends the iteration on success. -/
def parseStepTail (tok : SpotToken) (st : PState) : PState :=
  if st.hasReport = false ∧ (parseInlineSNR tok.clean).isSome then
    { st with report := (parseInlineSNR tok.clean).getD 0, hasReport := true }
  else if st.hasFreq = true ∧ st.dxCall = [] ∧ IsValidCallsign tok.clean = true then
    { st with dxCall := normalizeRBNCallsign tok.clean }
  else if st.pending = none ∧ (rbnParseSignedInt tok.clean).isSome then
    { st with pending := some (tok.clean, (rbnParseSignedInt tok.clean).getD 0) }
  else st

/-- parseStepCore is one iteration of `parseSpot`'s token loop after the
time peel, branch for branch: empty-token skip, free-standing time token,
frequency candidate, keyword switch (with its fall-through arms), then the
shared tail.  Every branch of the Go loop body ends the iteration, so one
iteration is a pure state update. -/
def parseStepCore (tok : SpotToken) (st : PState) : PState :=
  if tok.clean = [] then st
  else if st.timeToken = [] ∧ isTimeToken tok.clean = true then
    { st with timeToken := tok.clean, pending := none }
  else if st.hasFreq = false ∧ (parseFrequencyCandidate tok.clean).isSome then
    { st with freq := (parseFrequencyCandidate tok.clean).getD 0, hasFreq := true }
  else
    match classifyKeyword tok.upper with
    | some (ACKind.mode, m) =>
      match st.mode with
      | [] => { st with mode := NormalizeVoiceMode m st.freq }
      | _ => parseStepTail tok st
    | some (ACKind.db, _) =>
      match st.hasReport, st.pending with
      | false, some pv => { st with report := pv.2, hasReport := true, pending := none }
      | _, _ => st
    | some (ACKind.wpm, _) =>
      match st.wpmStr, st.pending with
      | [], some pv => { st with wpmStr := pv.1, pending := none }
      | _, _ => parseStepTail tok st
    | some (ACKind.dx, _) => st
    | some (ACKind.de, _) => st
    | none => parseStepTail tok st

/-- parseStep applies the time peel and then the rest of the iteration. -/
def parseStep (tok0 : SpotToken) (st0 : PState) : PState :=
  let peel := if st0.timeToken = [] then peelTimeTok tok0.clean else ([], tok0.clean)
  if peel.1 ≠ [] then
    parseStepCore { raw := tok0.raw, clean := peel.2, upper := goUpper peel.2 }
      { st0 with timeToken := peel.1 }
  else parseStepCore tok0 st0

/-- parseLoop folds `parseStep` over tokens[3:] left to right. -/
def parseLoop : List SpotToken → PState → PState
  | [], st => st
  | tok :: rest, st => parseLoop rest (parseStep tok st)

theorem parseStepTail_inv (tok : SpotToken) (st : PState) :
    (parseStepTail tok st).freq = st.freq ∧ (parseStepTail tok st).hasFreq = st.hasFreq ∧
      (parseStepTail tok st).timeToken = st.timeToken := by
  unfold parseStepTail
  split_ifs <;> exact ⟨rfl, rfl, rfl⟩

theorem parseStepCore_shape (tok : SpotToken) (st : PState) :
    ((parseStepCore tok st).freq = st.freq ∧ (parseStepCore tok st).hasFreq = st.hasFreq) ∨
    (st.hasFreq = false ∧ ∃ f, parseFrequencyCandidate tok.clean = some f ∧
      (parseStepCore tok st).freq = f ∧ (parseStepCore tok st).hasFreq = true) := by
  unfold parseStepCore
  split
  · exact Or.inl ⟨rfl, rfl⟩
  · split
    · exact Or.inl ⟨rfl, rfl⟩
    · split
      · rename_i hcond
        right
        obtain ⟨f, hf⟩ := Option.isSome_iff_exists.mp hcond.2
        refine ⟨hcond.1, f, hf, ?_, rfl⟩
        show (parseFrequencyCandidate tok.clean).getD 0 = f
        rw [hf]
        rfl
      · left
        split
        · split
          · exact ⟨rfl, rfl⟩
          · exact ⟨(parseStepTail_inv tok st).1, (parseStepTail_inv tok st).2.1⟩
        · split
          · exact ⟨rfl, rfl⟩
          · exact ⟨rfl, rfl⟩
        · split
          · exact ⟨rfl, rfl⟩
          · exact ⟨(parseStepTail_inv tok st).1, (parseStepTail_inv tok st).2.1⟩
        · exact ⟨rfl, rfl⟩
        · exact ⟨rfl, rfl⟩
        · exact ⟨(parseStepTail_inv tok st).1, (parseStepTail_inv tok st).2.1⟩

theorem parseStep_shape (tok0 : SpotToken) (st0 : PState) :
    ((parseStep tok0 st0).freq = st0.freq ∧ (parseStep tok0 st0).hasFreq = st0.hasFreq) ∨
    (st0.hasFreq = false ∧ ∃ c f, parseFrequencyCandidate c = some f ∧
      (parseStep tok0 st0).freq = f ∧ (parseStep tok0 st0).hasFreq = true) := by
  simp only [parseStep]
  split <;> split <;>
    exact (parseStepCore_shape _ _).imp (fun h => ⟨h.1, h.2⟩) (fun h => ⟨h.1, _, h.2⟩)

theorem parseLoop_frozen (toks : List SpotToken) (st : PState) (h : st.hasFreq = true) :
    (parseLoop toks st).freq = st.freq ∧ (parseLoop toks st).hasFreq = true := by
  induction toks generalizing st with
  | nil => exact ⟨rfl, h⟩
  | cons tok rest ih =>
    show (parseLoop rest (parseStep tok st)).freq = st.freq ∧ _
    rcases parseStep_shape tok st with ⟨h1, h2⟩ | ⟨h1, _⟩
    · have hres := ih (parseStep tok st) (h2.trans h)
      exact ⟨hres.1.trans h1, hres.2⟩
    · rw [h] at h1
      cases h1

theorem parseLoop_range (toks : List SpotToken) (st : PState)
    (h : st.hasFreq = true → 100 ≤ st.freq ∧ st.freq ≤ 3000000) :
    (parseLoop toks st).hasFreq = true →
      100 ≤ (parseLoop toks st).freq ∧ (parseLoop toks st).freq ≤ 3000000 := by
  induction toks generalizing st with
  | nil => exact h
  | cons tok rest ih =>
    show (parseLoop rest (parseStep tok st)).hasFreq = true → _
    refine ih (parseStep tok st) ?_
    rcases parseStep_shape tok st with ⟨h1, h2⟩ | ⟨_, c, f, hf, h2, _⟩
    · intro hh
      rw [h1, h2] at *
      exact h (by rw [← h2]; exact hh)
    · intro _
      rw [h2]
      exact parseFrequencyCandidate_range c f hf

/-- ApplyCorrection multiplies the parsed frequency by the spotter's skew
factor when one is configured.  Modelled from the spec: the body of
`skew.ApplyCorrection` is not among the provided sources; the spec
prescribes a per-spotter multiplicative correction before emitting, and the
skew table stores a `CorrectionFactor` per raw spotter call. -/
def ApplyCorrection (lookup : GoStr → Option ℚ) (call : GoStr) (freq : ℚ) : ℚ :=
  match lookup call with
  | some factor => freq * factor
  | none => freq

/-- RBNConfig bundles the client flags and external collaborators of
`parseSpot`: the allocation table, the permissive-parser flag, the CTY
lookup outcome, the US-license data, and the skew table. -/
structure RBNConfig where
  table : List ModeAllocation
  minimalParse : Bool
  ctyHit : GoStr → Bool
  adif291 : GoStr → Bool
  licensedUS : GoStr → Bool
  skew : GoStr → Option ℚ
  port : ℤ
  name : GoStr

/-- rbnInitState is the loop state before tokens[3:] are processed: the
frequency possibly captured from the spotter split, everything else empty. -/
def rbnInitState (deFreq : Option ℚ) : PState :=
  { freq := deFreq.getD 0, hasFreq := deFreq.isSome, dxCall := [], mode := [],
    timeToken := [], wpmStr := [], report := 0, hasReport := false, pending := none }

/-- parseSpotFinish is the tail of `parseSpot` after the token loop: the
frequency/DX-call presence checks, mode finalization, callsign validation,
the CTY and US-license gates, the skew correction, and the final Spot
record.  The Comment field and the comment/line SNR regex fallback are not
modelled (they run after every frequency decision); Report/HasReport carry
the loop's values. -/
def parseSpotFinish (cfg : RBNConfig) (deRaw : GoStr) (st : PState) (now : ℤ) :
    Option Spot :=
  if st.hasFreq = false then none
  else if st.dxCall = [] then none
  else
    let deCall := NormalizeCallsign deRaw
    let mode := FinalizeMode cfg.table st.mode st.freq
    if ¬(IsValidCallsign st.dxCall = true ∧ IsValidCallsign deCall = true) then none
    else if cfg.minimalParse = false ∧
        (cfg.ctyHit st.dxCall = false ∨ cfg.ctyHit deCall = false) then none
    else if cfg.minimalParse = false ∧ cfg.adif291 deCall = true ∧
        cfg.licensedUS deCall = false then none
    else
      let freq := if cfg.minimalParse then st.freq
        else ApplyCorrection cfg.skew deRaw st.freq
      let s0 := NewSpot st.dxCall deCall freq mode
      some { s0 with
        Time := if st.timeToken ≠ [] then parseTimeFromRBN now st.timeToken
          else s0.Time,
        Report := if st.hasReport then st.report else s0.Report,
        HasReport := st.hasReport,
        IsHuman := cfg.minimalParse,
        sourceType := if cfg.minimalParse then SourceType.upstream
          else if mode = gs "FT8" then SourceType.ft8
          else if mode = gs "FT4" then SourceType.ft4
          else SourceType.rbn,
        SourceNode := if cfg.minimalParse then
            (if goTrim cfg.name ≠ [] then cfg.name else s0.SourceNode)
          else if cfg.port = 7001 then gs "RBN-DIGITAL" else gs "RBN" }

/-- parseSpotTokens handles the structural prefix, the spotter split, and
the token loop. -/
def parseSpotTokens (cfg : RBNConfig) (tokens : List SpotToken) (now : ℤ) :
    Option Spot :=
  if tokens.length < 3 then none
  else if ¬(goUpper ((tokens.getD 0 ⟨[], [], []⟩).clean) = gs "DX" ∧
      goUpper ((tokens.getD 1 ⟨[], [], []⟩).clean) = gs "DE") then none
  else
    let deSplit := extractCallAndFreq (tokens.getD 2 ⟨[], [], []⟩)
    if goTrim deSplit.1 = [] then none
    else parseSpotFinish cfg deSplit.1
      (parseLoop (tokens.drop 3) (rbnInitState deSplit.2)) now

/-- parseSpotModel is `parseSpot` from the leading trim to the spot emitted
on the channel. -/
def parseSpotModel (cfg : RBNConfig) (line0 : GoStr) (now : ℤ) : Option Spot :=
  let line := goTrim line0
  if line = [] then none
  else parseSpotTokens cfg (tokenizeSpotLine line) now

theorem extractCallAndFreq_range (t : SpotToken) (f : ℚ)
    (h : (extractCallAndFreq t).2 = some f) : 100 ≤ f ∧ f ≤ 3000000 := by
  unfold extractCallAndFreq at h
  split at h
  · exact absurd h (by simp)
  · split at h
    · exact absurd h (by simp)
    · exact parseFrequencyCandidate_range _ _ h

theorem parseSpotFinish_freq (cfg : RBNConfig) (deRaw : GoStr) (st : PState)
    (now : ℤ) (s : Spot) (h : parseSpotFinish cfg deRaw st now = some s) :
    st.hasFreq = true ∧ s.Frequency =
      (if cfg.minimalParse then st.freq else ApplyCorrection cfg.skew deRaw st.freq) := by
  simp only [parseSpotFinish] at h
  split at h
  · exact absurd h (by simp)
  case isFalse hfreq =>
  split at h
  · exact absurd h (by simp)
  split at h
  · exact absurd h (by simp)
  split at h
  · exact absurd h (by simp)
  split at h
  · exact absurd h (by simp)
  rw [Option.some_inj] at h
  subst h
  exact ⟨by simpa using hfreq, rfl⟩

/-- C2 (amended): the wire parser only accepts a frequency token whose value
lies in [100, 3000000] kHz (anything else is rejected at parse time), and
every Spot emitted by parseSpot carries that in-range parsed frequency,
multiplied by the spotter's skew correction factor when the client is not in
minimal-parse mode.  (The skew correction can move the emitted frequency
outside the range.) -/
theorem parseSpot_freq_amended :
    (∀ tok f, parseFrequencyCandidate tok = some f → 100 ≤ f ∧ f ≤ 3000000) ∧
    (∀ cfg line now s, parseSpotModel cfg line now = some s →
      ∃ f0 d, (100 ≤ f0 ∧ f0 ≤ 3000000) ∧
        s.Frequency = (if cfg.minimalParse then f0 else ApplyCorrection cfg.skew d f0)) := by
  refine ⟨parseFrequencyCandidate_range, ?_⟩
  intro cfg line now s h
  simp only [parseSpotModel] at h
  split at h
  · exact absurd h (by simp)
  simp only [parseSpotTokens] at h
  split at h
  · exact absurd h (by simp)
  split at h
  · exact absurd h (by simp)
  split at h
  · exact absurd h (by simp)
  obtain ⟨hfreq, hs⟩ := parseSpotFinish_freq _ _ _ _ _ h
  refine ⟨_, _, ?_, hs⟩
  refine parseLoop_range _ _ ?_ hfreq
  intro hS
  obtain ⟨g, hg⟩ := Option.isSome_iff_exists.mp hS
  have hr := extractCallAndFreq_range _ g hg
  show 100 ≤ Option.getD _ 0 ∧ Option.getD _ 0 ≤ 3000000
  rw [hg]
  exact hr

/-- c2Cfg is a strict-parser configuration whose skew table publishes a
correction factor of 2.0 for every spotter (factors are unconstrained float
values read from the published CSV). -/
def c2Cfg : RBNConfig :=
  { table := [], minimalParse := false, ctyHit := fun _ => true,
    adif291 := fun _ => false, licensedUS := fun _ => true,
    skew := fun _ => some 2, port := 7000, name := [] }

/-- c2Line is a wire line whose spotter token carries a glued in-range
frequency of 2000000 kHz. -/
def c2Line : GoStr := gs "DX de W1AAA:2000000 K1ABC CW"

theorem c2_freq_cand : parseFrequencyCandidate (gs "2000000") = some 2000000 := by
  have hp : goParseFloatParts (gs "2000000") = some (false, gs "2000000", [], 0) := by
    decide
  have hv : floatVal false (gs "2000000") [] 0 = 2000000 := by
    unfold floatVal
    have hd : digitsVal (gs "2000000" ++ []) = 2000000 := by decide
    rw [hd]
    norm_num
  have hg : goParseFloat (gs "2000000") = some 2000000 := by
    unfold goParseFloat
    rw [hp]
    show some (floatVal false (gs "2000000") [] 0) = some 2000000
    rw [hv]
  unfold parseFrequencyCandidate
  rw [if_neg (by decide), hg]
  show (if (2000000 : ℚ) < 100 ∨ 3000000 < (2000000 : ℚ) then none else some 2000000) =
    some 2000000
  rw [if_neg (by norm_num)]

theorem c2_split_eval :
    extractCallAndFreq ((tokenizeSpotLine c2Line).getD 2 ⟨[], [], []⟩) =
      (gs "W1AAA", some 2000000) := by
  have h1 : (tokenizeSpotLine c2Line).getD 2 ⟨[], [], []⟩ =
      ⟨gs "W1AAA:2000000", gs "W1AAA:2000000", gs "W1AAA:2000000"⟩ := by decide
  rw [h1]
  unfold extractCallAndFreq
  rw [if_neg (by decide)]
  rw [show (gs "W1AAA:2000000").findIdx? (fun c => decide (c = cn ':')) = some 5 from
    by decide]
  show (goTrim ((gs "W1AAA:2000000").take 5),
    parseFrequencyCandidate (goTrim (goTrimSet (gs ",;:") ((gs "W1AAA:2000000").drop 6)))) = _
  rw [show goTrim ((gs "W1AAA:2000000").take 5) = gs "W1AAA" from by decide]
  rw [show goTrim (goTrimSet (gs ",;:") ((gs "W1AAA:2000000").drop 6)) = gs "2000000" from
    by decide]
  rw [c2_freq_cand]

/-- c2LoopState is the loop state after tokens[3:] of `c2Line`. -/
def c2LoopState : PState :=
  { freq := 2000000, hasFreq := true, dxCall := gs "K1ABC", mode := gs "CW",
    timeToken := [], wpmStr := [], report := 0, hasReport := false, pending := none }

theorem c2_loop_eval :
    parseLoop (List.drop 3 (tokenizeSpotLine c2Line)) (rbnInitState (some 2000000)) =
      c2LoopState := by
  decide

/-- c2ResultSpot is the spot `parseSpot` emits for `c2Line` under `c2Cfg`:
the in-range parsed 2000000 kHz multiplied by the skew factor 2. -/
def c2ResultSpot : Spot :=
  { DXCall := gs "K1ABC", DECall := gs "W1AAA", Frequency := 2000000 * 2,
    Mode := gs "CW", Report := 0, HasReport := false, Time := 0, Comment := [],
    sourceType := SourceType.rbn, SourceNode := gs "RBN", IsHuman := false,
    Confidence := [], TTL := 0 }

theorem c2_parse_eval : parseSpotModel c2Cfg c2Line 0 = some c2ResultSpot := by
  simp only [parseSpotModel, parseSpotTokens]
  rw [show goTrim c2Line = c2Line from by decide]
  rw [if_neg (by decide : ¬(c2Line = []))]
  rw [if_neg (by decide), if_neg (by decide)]
  rw [c2_split_eval]
  rw [if_neg (by decide : ¬(goTrim ((gs "W1AAA", some (2000000 : ℚ)).1) = []))]
  show parseSpotFinish c2Cfg (gs "W1AAA")
    (parseLoop (List.drop 3 (tokenizeSpotLine c2Line)) (rbnInitState (some 2000000))) 0 =
      some c2ResultSpot
  rw [c2_loop_eval]
  simp only [parseSpotFinish]
  rw [if_neg (by decide), if_neg (by decide), if_neg (by decide), if_neg (by decide),
    if_neg (by decide)]
  rfl

/-- C2 counterexample: under a configured skew table with factor 2.0, the
line `c2Line` (frequency token 2000000, inside [100, 3000000]) is emitted
with Frequency 4000000 kHz, outside the claimed range. -/
theorem parseSpot_freq_counterexample :
    ∃ s, parseSpotModel c2Cfg c2Line 0 = some s ∧ 3000000 < s.Frequency :=
  ⟨c2ResultSpot, c2_parse_eval, by norm_num [c2ResultSpot]⟩

/-- Witness for the amended frequency claim at the concrete parse above. -/
theorem parseSpot_freq_amended_witness :
    ∃ f0 d, (100 ≤ f0 ∧ f0 ≤ 3000000) ∧
      c2ResultSpot.Frequency =
        (if c2Cfg.minimalParse then f0 else ApplyCorrection c2Cfg.skew d f0) :=
  parseSpot_freq_amended.2 c2Cfg c2Line 0 c2ResultSpot c2_parse_eval

theorem peelTimeTok_cases (t : GoStr) :
    peelTimeTok t = ([], t) ∨ (peelTimeTok t).1 ≠ [] := by
  simp only [peelTimeTok]
  split
  case isTrue h => exact Or.inl rfl
  case isFalse h =>
    split
    case isTrue h2 =>
      right
      show t.take 5 ≠ []
      intro hnil
      have hlen := congrArg List.length hnil
      simp only [List.length_take, List.length_nil] at hlen
      omega
    case isFalse h2 => exact Or.inl rfl

/-- scanPeel is the time-prefix peel as seen by the frequency scan: it can
only fire before any time token has been consumed. -/
def scanPeel (tok : SpotToken) (seen : Bool) : GoStr × GoStr :=
  if seen = false then peelTimeTok tok.clean else ([], tok.clean)

/-- scanStepF is the frequency decision one token contributes under the
corrected selection rule: after the time peel, a non-empty token not
consumed as a free-standing time token is taken exactly when
parseFrequencyCandidate accepts it (no decimal point required). -/
def scanStepF (tok : SpotToken) (seen : Bool) : Option ℚ :=
  if (scanPeel tok seen).2 = [] then none
  else if seen = false ∧ (scanPeel tok seen).1 = [] ∧
      isTimeToken (scanPeel tok seen).2 = true then none
  else parseFrequencyCandidate (scanPeel tok seen).2

/-- scanStepSeen tracks whether a time token has been consumed after one
token of the scan. -/
def scanStepSeen (tok : SpotToken) (seen : Bool) : Bool :=
  seen || decide ((scanPeel tok seen).1 ≠ []) || isTimeToken (scanPeel tok seen).2

/-- firstFreqScan is modelled from the spec's frequency-selection rule, with
the decimal-point requirement removed: scanning left to right and skipping
tokens consumed as time tokens, it returns the value of the first token
accepted by parseFrequencyCandidate. -/
def firstFreqScan : List SpotToken → Bool → Option ℚ
  | [], _ => none
  | tok :: rest, seen =>
    if (scanStepF tok seen).isSome then scanStepF tok seen
    else firstFreqScan rest (scanStepSeen tok seen)

theorem parseStepCore_track (tok : SpotToken) (st : PState) (hF : st.hasFreq = false) :
    (tok.clean = [] ∧ parseStepCore tok st = st) ∨
    (tok.clean ≠ [] ∧ st.timeToken = [] ∧ isTimeToken tok.clean = true ∧
      parseStepCore tok st = { st with timeToken := tok.clean, pending := none }) ∨
    (tok.clean ≠ [] ∧ ¬(st.timeToken = [] ∧ isTimeToken tok.clean = true) ∧
      ((∃ f, parseFrequencyCandidate tok.clean = some f ∧
          (parseStepCore tok st).hasFreq = true ∧ (parseStepCore tok st).freq = f) ∨
        (parseFrequencyCandidate tok.clean = none ∧
          (parseStepCore tok st).hasFreq = false ∧
          (parseStepCore tok st).timeToken = st.timeToken))) := by
  unfold parseStepCore
  split
  case isTrue h => exact Or.inl ⟨h, rfl⟩
  case isFalse h =>
    split
    case isTrue h2 => exact Or.inr (Or.inl ⟨h, h2.1, h2.2, rfl⟩)
    case isFalse h2 =>
      refine Or.inr (Or.inr ⟨h, h2, ?_⟩)
      split
      case isTrue h3 =>
        obtain ⟨f, hf⟩ := Option.isSome_iff_exists.mp h3.2
        refine Or.inl ⟨f, hf, rfl, ?_⟩
        show (parseFrequencyCandidate tok.clean).getD 0 = f
        rw [hf]
        rfl
      case isFalse h3 =>
        have hc : parseFrequencyCandidate tok.clean = none := by
          rcases hcc : parseFrequencyCandidate tok.clean with _ | f
          · rfl
          · exact absurd ⟨hF, by rw [hcc]; rfl⟩ h3
        refine Or.inr ⟨hc, ?_⟩
        split
        · split
          · exact ⟨hF, rfl⟩
          · exact ⟨(parseStepTail_inv tok st).2.1.trans hF, (parseStepTail_inv tok st).2.2⟩
        · split
          · exact ⟨hF, rfl⟩
          · exact ⟨hF, rfl⟩
        · split
          · exact ⟨hF, rfl⟩
          · exact ⟨(parseStepTail_inv tok st).2.1.trans hF, (parseStepTail_inv tok st).2.2⟩
        · exact ⟨hF, rfl⟩
        · exact ⟨hF, rfl⟩
        · exact ⟨(parseStepTail_inv tok st).2.1.trans hF, (parseStepTail_inv tok st).2.2⟩

theorem parseStep_track (tok : SpotToken) (st : PState) (hF : st.hasFreq = false) :
    (scanStepF tok (decide (st.timeToken ≠ [])) = none →
      (parseStep tok st).hasFreq = false ∧
        decide ((parseStep tok st).timeToken ≠ []) =
          scanStepSeen tok (decide (st.timeToken ≠ []))) ∧
    (∀ f, scanStepF tok (decide (st.timeToken ≠ [])) = some f →
      (parseStep tok st).hasFreq = true ∧ (parseStep tok st).freq = f) := by
  by_cases hT : st.timeToken = []
  · have hseen : decide (st.timeToken ≠ []) = false := by simp [hT]
    rw [hseen]
    rcases peelTimeTok_cases tok.clean with hP | hP
    · have hpeel : scanPeel tok false = ([], tok.clean) := by
        simp only [scanPeel]
        rw [if_pos trivial]
        exact hP
      have hps : parseStep tok st = parseStepCore tok st := by
        simp only [parseStep]
        rw [if_pos hT, hP]
        rw [if_neg (show ¬((([] : GoStr), tok.clean).1 ≠ []) from by simp)]
      rcases parseStepCore_track tok st hF with ⟨hc, he⟩ | ⟨hc, hT2, hit, he⟩ |
        ⟨hc, hnt, ⟨f0, hf0, hhf, hfr⟩ | ⟨hnone, hhf, htt⟩⟩
      · constructor
        · intro _
          rw [hps, he]
          refine ⟨hF, ?_⟩
          simp [scanStepSeen, hpeel, hc, hT, isTimeToken]
        · intro f hf
          simp [scanStepF, hpeel, hc] at hf
      · constructor
        · intro _
          rw [hps, he]
          refine ⟨hF, ?_⟩
          show decide (tok.clean ≠ []) = scanStepSeen tok false
          simp [scanStepSeen, hpeel, hc, hit]
        · intro f hf
          simp [scanStepF, hpeel, hc, hit] at hf
      · have hitf : isTimeToken tok.clean = false := by
          cases hb : isTimeToken tok.clean
          · rfl
          · exact absurd ⟨hT, hb⟩ hnt
        have hsf : scanStepF tok false = some f0 := by
          simp [scanStepF, hpeel, hc, hitf, hf0]
        constructor
        · intro hn
          rw [hsf] at hn
          exact absurd hn (by simp)
        · intro f hf
          rw [hsf] at hf
          obtain rfl : f0 = f := Option.some_inj.mp hf
          rw [hps]
          exact ⟨hhf, hfr⟩
      · have hitf : isTimeToken tok.clean = false := by
          cases hb : isTimeToken tok.clean
          · rfl
          · exact absurd ⟨hT, hb⟩ hnt
        constructor
        · intro _
          rw [hps]
          refine ⟨hhf, ?_⟩
          rw [htt, hT]
          simp [scanStepSeen, hpeel, hitf]
        · intro f hf
          simp [scanStepF, hpeel, hc, hitf, hnone] at hf
    · rcases hpe : peelTimeTok tok.clean with ⟨p1, p2⟩
      rw [hpe] at hP
      have hP2 : p1 ≠ [] := by simpa using hP
      have hpeel : scanPeel tok false = (p1, p2) := by
        simp only [scanPeel]
        rw [if_pos trivial]
        exact hpe
      have hps : parseStep tok st =
          parseStepCore ⟨tok.raw, p2, goUpper p2⟩ { st with timeToken := p1 } := by
        simp only [parseStep]
        rw [if_pos hT, hpe]
        rw [if_pos (show ((p1, p2) : GoStr × GoStr).1 ≠ [] from hP2)]
      have hF1 : ({ st with timeToken := p1 } : PState).hasFreq = false := hF
      rcases parseStepCore_track ⟨tok.raw, p2, goUpper p2⟩ { st with timeToken := p1 } hF1 with
        ⟨hc, he⟩ | ⟨hc, hT2, hit, he⟩ |
        ⟨hc, hnt, ⟨f0, hf0, hhf, hfr⟩ | ⟨hnone, hhf, htt⟩⟩
      · have hc2 : p2 = [] := hc
        constructor
        · intro _
          rw [hps, he]
          refine ⟨hF, ?_⟩
          show decide (p1 ≠ []) = scanStepSeen tok false
          simp [scanStepSeen, hpeel, hP2]
        · intro f hf
          simp [scanStepF, hpeel, hc2] at hf
      · exact absurd hT2 hP2
      · have hc2 : p2 ≠ [] := hc
        have hf02 : parseFrequencyCandidate p2 = some f0 := hf0
        have hsf : scanStepF tok false = some f0 := by
          simp [scanStepF, hpeel, hc2, hP2, hf02]
        constructor
        · intro hn
          rw [hsf] at hn
          exact absurd hn (by simp)
        · intro f hf
          rw [hsf] at hf
          obtain rfl : f0 = f := Option.some_inj.mp hf
          rw [hps]
          exact ⟨hhf, hfr⟩
      · have hc2 : p2 ≠ [] := hc
        have hnone2 : parseFrequencyCandidate p2 = none := hnone
        constructor
        · intro _
          rw [hps]
          refine ⟨hhf, ?_⟩
          rw [htt]
          show decide (p1 ≠ []) = scanStepSeen tok false
          simp [scanStepSeen, hpeel, hP2]
        · intro f hf
          simp [scanStepF, hpeel, hc2, hP2, hnone2] at hf
  · have hseen : decide (st.timeToken ≠ []) = true := by simp [hT]
    rw [hseen]
    have hpeel : scanPeel tok true = ([], tok.clean) := by simp [scanPeel]
    have hps : parseStep tok st = parseStepCore tok st := by
      simp only [parseStep]
      rw [if_neg hT]
      rw [if_neg (show ¬((([] : GoStr), tok.clean).1 ≠ []) from by simp)]
    rcases parseStepCore_track tok st hF with ⟨hc, he⟩ | ⟨hc, hT2, hit, he⟩ |
      ⟨hc, hnt, ⟨f0, hf0, hhf, hfr⟩ | ⟨hnone, hhf, htt⟩⟩
    · constructor
      · intro _
        rw [hps, he]
        refine ⟨hF, ?_⟩
        simp [scanStepSeen, hpeel, hT]
      · intro f hf
        simp [scanStepF, hpeel, hc] at hf
    · exact absurd hT2 hT
    · have hsf : scanStepF tok true = some f0 := by
        simp [scanStepF, hpeel, hc, hf0]
      constructor
      · intro hn
        rw [hsf] at hn
        exact absurd hn (by simp)
      · intro f hf
        rw [hsf] at hf
        obtain rfl : f0 = f := Option.some_inj.mp hf
        rw [hps]
        exact ⟨hhf, hfr⟩
    · constructor
      · intro _
        rw [hps]
        refine ⟨hhf, ?_⟩
        rw [htt]
        simp [scanStepSeen, hpeel, hT]
      · intro f hf
        simp [scanStepF, hpeel, hc, hnone] at hf

theorem parseLoop_scan (toks : List SpotToken) (st : PState) (hF : st.hasFreq = false) :
    (firstFreqScan toks (decide (st.timeToken ≠ [])) = none →
      (parseLoop toks st).hasFreq = false) ∧
    (∀ f, firstFreqScan toks (decide (st.timeToken ≠ [])) = some f →
      (parseLoop toks st).hasFreq = true ∧ (parseLoop toks st).freq = f) := by
  induction toks generalizing st with
  | nil => exact ⟨fun _ => hF, fun f hf => absurd hf (by simp [firstFreqScan])⟩
  | cons tok rest ih =>
    obtain ⟨h1, h2⟩ := parseStep_track tok st hF
    cases hs : scanStepF tok (decide (st.timeToken ≠ [])) with
    | none =>
      obtain ⟨ha, hb⟩ := h1 hs
      have ihx := ih (parseStep tok st) ha
      rw [hb] at ihx
      have hstep : firstFreqScan (tok :: rest) (decide (st.timeToken ≠ [])) =
          firstFreqScan rest (scanStepSeen tok (decide (st.timeToken ≠ []))) := by
        simp only [firstFreqScan]
        rw [hs]
        rw [if_neg (by simp : ¬((none : Option ℚ).isSome = true))]
      rw [hstep]
      exact ihx
    | some f0 =>
      obtain ⟨ha, hb⟩ := h2 f0 hs
      have hloop := parseLoop_frozen rest (parseStep tok st) ha
      have hstep : firstFreqScan (tok :: rest) (decide (st.timeToken ≠ [])) =
          some f0 := by
        simp only [firstFreqScan]
        rw [hs]
        rw [if_pos (show (some f0).isSome = true from rfl)]
      rw [hstep]
      constructor
      · intro hn
        exact absurd hn (by simp)
      · intro f hf
        obtain rfl : f0 = f := Option.some_inj.mp hf
        exact ⟨hloop.2, hloop.1.trans hb⟩

/-- C3 (amended): when the spotter-token split yields no frequency, the
frequency carried by an emitted spot is the value of the first remaining
token accepted by parseFrequencyCandidate — numeric and inside
[100, 3000000] kHz, with no decimal-point requirement — scanning left to
right past consumed time tokens, then multiplied by the skew correction
factor when the client is not in minimal-parse mode. -/
theorem parseSpot_firstFreq_amended (cfg : RBNConfig) (line : GoStr) (now : ℤ)
    (s : Spot) (h : parseSpotModel cfg line now = some s)
    (hn : (extractCallAndFreq
      ((tokenizeSpotLine (goTrim line)).getD 2 ⟨[], [], []⟩)).2 = none) :
    ∃ f d, firstFreqScan ((tokenizeSpotLine (goTrim line)).drop 3) false = some f ∧
      s.Frequency = (if cfg.minimalParse then f else ApplyCorrection cfg.skew d f) := by
  simp only [parseSpotModel] at h
  split at h
  · exact absurd h (by simp)
  simp only [parseSpotTokens] at h
  split at h
  · exact absurd h (by simp)
  split at h
  · exact absurd h (by simp)
  split at h
  · exact absurd h (by simp)
  rw [hn] at h
  obtain ⟨hfreq, hs⟩ := parseSpotFinish_freq _ _ _ _ _ h
  obtain ⟨hA, hB⟩ :=
    parseLoop_scan ((tokenizeSpotLine (goTrim line)).drop 3) (rbnInitState none) rfl
  rw [show decide ((rbnInitState (none : Option ℚ)).timeToken ≠ []) = false from rfl]
    at hA hB
  cases hscan : firstFreqScan ((tokenizeSpotLine (goTrim line)).drop 3) false with
  | none =>
    have hcontra := hA hscan
    rw [hcontra] at hfreq
    exact absurd hfreq (by simp)
  | some f =>
    obtain ⟨hTr, hFr⟩ := hB f hscan
    refine ⟨f,
      (extractCallAndFreq ((tokenizeSpotLine (goTrim line)).getD 2 ⟨[], [], []⟩)).1,
      rfl, ?_⟩
    rw [hs, hFr]

/-- c3Cfg is a strict-parser configuration with an empty skew table. -/
def c3Cfg : RBNConfig :=
  { table := [], minimalParse := false, ctyHit := fun _ => true,
    adif291 := fun _ => false, licensedUS := fun _ => true,
    skew := fun _ => none, port := 7000, name := [] }

/-- c3Line is a wire line whose only frequency-like token is the integer
7000, with no decimal point anywhere on the line. -/
def c3Line : GoStr := gs "DX de W1AAA 7000 K1ABC CW"

theorem c3_freq_cand : parseFrequencyCandidate (gs "7000") = some 7000 := by
  have hp : goParseFloatParts (gs "7000") = some (false, gs "7000", [], 0) := by decide
  have hv : floatVal false (gs "7000") [] 0 = 7000 := by
    unfold floatVal
    have hd : digitsVal (gs "7000" ++ []) = 7000 := by decide
    rw [hd]
    norm_num
  have hg : goParseFloat (gs "7000") = some 7000 := by
    unfold goParseFloat
    rw [hp]
    show some (floatVal false (gs "7000") [] 0) = some 7000
    rw [hv]
  unfold parseFrequencyCandidate
  rw [if_neg (by decide), hg]
  show (if (7000 : ℚ) < 100 ∨ 3000000 < (7000 : ℚ) then none else some 7000) = some 7000
  rw [if_neg (by norm_num)]

theorem c3_split_eval :
    extractCallAndFreq ((tokenizeSpotLine c3Line).getD 2 ⟨[], [], []⟩) =
      (gs "W1AAA", none) := by
  have h1 : (tokenizeSpotLine c3Line).getD 2 ⟨[], [], []⟩ =
      ⟨gs "W1AAA", gs "W1AAA", gs "W1AAA"⟩ := by decide
  rw [h1]
  unfold extractCallAndFreq
  rw [if_neg (by decide)]
  rw [show (gs "W1AAA").findIdx? (fun c => decide (c = cn ':')) = none from by decide]

/-- c3St1 is the loop state after the token 7000 is taken as frequency. -/
def c3St1 : PState :=
  { freq := 7000, hasFreq := true, dxCall := [], mode := [], timeToken := [],
    wpmStr := [], report := 0, hasReport := false, pending := none }

theorem c3_step1 :
    parseStep (mkSpotToken (gs "7000")) (rbnInitState none) = c3St1 := by
  have hps : parseStep (mkSpotToken (gs "7000")) (rbnInitState none) =
      parseStepCore (mkSpotToken (gs "7000")) (rbnInitState none) := by
    simp only [parseStep]
    rw [if_pos (show (rbnInitState (none : Option ℚ)).timeToken = [] from rfl)]
    rw [show peelTimeTok (mkSpotToken (gs "7000")).clean = ([], gs "7000") from by decide]
    rw [if_neg (show ¬((([] : GoStr), gs "7000").1 ≠ []) from by simp)]
  rw [hps]
  unfold parseStepCore
  rw [show (mkSpotToken (gs "7000")).clean = gs "7000" from by decide]
  rw [if_neg (by decide : ¬(gs "7000" = ([] : GoStr)))]
  rw [if_neg (by decide : ¬((rbnInitState (none : Option ℚ)).timeToken = [] ∧
    isTimeToken (gs "7000") = true))]
  rw [if_pos (show (rbnInitState (none : Option ℚ)).hasFreq = false ∧
      (parseFrequencyCandidate (gs "7000")).isSome = true from
      ⟨rfl, by rw [c3_freq_cand]; rfl⟩)]
  rw [c3_freq_cand]
  rfl

/-- c3LoopState is the loop state after tokens[3:] of `c3Line`. -/
def c3LoopState : PState :=
  { freq := 7000, hasFreq := true, dxCall := gs "K1ABC", mode := gs "CW",
    timeToken := [], wpmStr := [], report := 0, hasReport := false, pending := none }

theorem c3_loop_eval :
    parseLoop (List.drop 3 (tokenizeSpotLine c3Line)) (rbnInitState none) =
      c3LoopState := by
  have htoks : List.drop 3 (tokenizeSpotLine c3Line) =
      [mkSpotToken (gs "7000"), mkSpotToken (gs "K1ABC"), mkSpotToken (gs "CW")] := by
    decide
  rw [htoks]
  show parseLoop [mkSpotToken (gs "K1ABC"), mkSpotToken (gs "CW")]
    (parseStep (mkSpotToken (gs "7000")) (rbnInitState none)) = c3LoopState
  rw [c3_step1]
  decide

/-- c3ResultSpot is the spot `parseSpot` emits for `c3Line` under `c3Cfg`:
the dotless integer token 7000 is its frequency. -/
def c3ResultSpot : Spot :=
  { DXCall := gs "K1ABC", DECall := gs "W1AAA", Frequency := 7000, Mode := gs "CW",
    Report := 0, HasReport := false, Time := 0, Comment := [],
    sourceType := SourceType.rbn, SourceNode := gs "RBN", IsHuman := false,
    Confidence := [], TTL := 0 }

theorem c3_parse_eval : parseSpotModel c3Cfg c3Line 0 = some c3ResultSpot := by
  simp only [parseSpotModel, parseSpotTokens]
  rw [show goTrim c3Line = c3Line from by decide]
  rw [if_neg (by decide : ¬(c3Line = []))]
  rw [if_neg (by decide), if_neg (by decide)]
  rw [c3_split_eval]
  rw [if_neg (by decide : ¬(goTrim ((gs "W1AAA", (none : Option ℚ)).1) = []))]
  show parseSpotFinish c3Cfg (gs "W1AAA")
    (parseLoop (List.drop 3 (tokenizeSpotLine c3Line)) (rbnInitState none)) 0 =
      some c3ResultSpot
  rw [c3_loop_eval]
  simp only [parseSpotFinish]
  rw [if_neg (by decide), if_neg (by decide), if_neg (by decide), if_neg (by decide),
    if_neg (by decide)]
  rfl

/-- C3 counterexample: the line `c3Line` contains no decimal point anywhere,
yet its dotless integer token 7000 is taken as the emitted spot's
frequency. -/
theorem parseSpot_decimal_counterexample :
    (parseSpotModel c3Cfg c3Line 0).map Spot.Frequency = some 7000 ∧
      (cn '.') ∉ c3Line := by
  refine ⟨?_, by decide⟩
  rw [c3_parse_eval]
  rfl

/-- Witness for the amended first-frequency claim at the concrete parse
above. -/
theorem parseSpot_firstFreq_amended_witness :
    ∃ f d, firstFreqScan ((tokenizeSpotLine (goTrim c3Line)).drop 3) false = some f ∧
      c3ResultSpot.Frequency =
        (if c3Cfg.minimalParse then f else ApplyCorrection c3Cfg.skew d f) :=
  parseSpot_firstFreq_amended c3Cfg c3Line 0 c3ResultSpot c3_parse_eval (by decide)

/-!  DXSpider PC-frame ingestion, translated from `peer/parse.go`
(`parsePC11`, `parsePC61`, `parseCommentModeReport`, `matchModeToken`,
`parseSignedInt`, `parseInlineDB`).  `parsePCDateTime` depends on the wall
clock through `time.Now()`, so it enters as the function parameter
`pcTime`; `RefreshBeaconFlag` touches no field of the Spot model and is
not modelled. -/

/-- modeTokens is the mode keyword list of `peer/parse.go`. -/
def modeTokens : List GoStr :=
  [gs "CW", gs "RTTY", gs "FT8", gs "FT4", gs "MSK144", gs "MSK", gs "USB",
   gs "LSB", gs "SSB", gs "AM", gs "FM"]

/-- matchModeToken returns the first exactly matching mode keyword, with the
source's (unreachable) MSK fallback preserved. -/
def matchModeToken (token : GoStr) : GoStr :=
  match modeTokens.find? (fun m => decide (token = m)) with
  | some m => m
  | none => if token = gs "MSK" then gs "MSK144" else []

/-- pcParseSignedInt is `peer.parseSignedInt`: one leading plus sign is
stripped, then `strconv.Atoi`. -/
def pcParseSignedInt (tok : GoStr) : Option ℤ :=
  match tok with
  | [] => none
  | c :: rest => if c = cn '+' then goAtoi rest else goAtoi tok

/-- parseInlineDB is `peer.parseInlineDB`: a token of length at least 3
whose lower-casing ends in db, with the numeric head parsed as a signed
int. -/
def parseInlineDB (tok : GoStr) : Option ℤ :=
  if tok.length < 3 then none
  else if (gs "db").isSuffixOf (goLower tok) = false then none
  else pcParseSignedInt (tok.take (tok.length - 2))

/-- pcNormalizeComment is the three single-rune ReplaceAll calls that map
caret, carriage return and newline to spaces. -/
def pcNormalizeComment (comment : GoStr) : GoStr :=
  comment.map (fun c => if c = cn '^' ∨ c = 13 ∨ c = 10 then 32 else c)

/-- fieldsAux collects maximal runs of non-whitespace runes. -/
def fieldsAux : GoStr → GoStr → List GoStr
  | [], acc => if acc = [] then [] else [acc.reverse]
  | c :: rest, acc =>
    if isSpaceRune c then
      (if acc = [] then fieldsAux rest [] else acc.reverse :: fieldsAux rest [])
    else fieldsAux rest (c :: acc)

/-- goFields models `strings.Fields`. -/
def goFields (s : GoStr) : List GoStr := fieldsAux s []

/-- goJoinSpace models `strings.Join` with a single-space separator. -/
def goJoinSpace : List GoStr → GoStr
  | [] => []
  | [x] => x
  | x :: y :: ys => x ++ 32 :: goJoinSpace (y :: ys)

/-- pcLoop is the comment-token loop of `parseCommentModeReport`, branch for
branch: the mode keyword (only before a mode is set), the inline dB token,
the signed int followed by a DB token (which consumes both, the source's
skipNext), and the cleaned-comment fallback. -/
def pcLoop : List GoStr → GoStr → ℤ → Bool → List GoStr →
    GoStr × ℤ × Bool × List GoStr
  | [], mode, report, hasReport, cleaned => (mode, report, hasReport, cleaned)
  | tok :: rest, mode, report, hasReport, cleaned =>
    let upper := goUpper tok
    if mode = [] ∧ matchModeToken upper ≠ [] then
      pcLoop rest (matchModeToken upper) report hasReport cleaned
    else if hasReport = false ∧ (parseInlineDB upper).isSome then
      pcLoop rest mode ((parseInlineDB upper).getD 0) true cleaned
    else
      match rest with
      | next :: rest2 =>
        if hasReport = false ∧ (pcParseSignedInt tok).isSome ∧
            goUpper next = gs "DB" then
          pcLoop rest2 mode ((pcParseSignedInt tok).getD 0) true cleaned
        else pcLoop (next :: rest2) mode report hasReport (cleaned ++ [tok])
      | [] => (mode, report, hasReport, cleaned ++ [tok])

/-- parseCommentModeReport extracts (mode, report, hasReport, cleaned
comment) from a PC-frame comment, finalizing the mode against the
allocation table. -/
def parseCommentModeReport (table : List ModeAllocation) (comment : GoStr)
    (freq : ℚ) : GoStr × ℤ × Bool × GoStr :=
  let fields := goFields (pcNormalizeComment comment)
  if fields = [] then (FinalizeMode table [] freq, 0, false, [])
  else
    let r := pcLoop fields [] 0 false []
    (FinalizeMode table r.1 freq, r.2.1, r.2.2.1, goJoinSpace r.2.2.2)

/-- parsePC11 converts a PC11 payload into a Spot. -/
def parsePC11 (table : List ModeAllocation) (pcTime : GoStr → GoStr → ℤ)
    (fields : List GoStr) (hop : ℤ) (fallbackOrigin : GoStr) : Option Spot :=
  if fields.length < 7 then none
  else match goParseFloat (goTrim (fields.getD 0 [])) with
    | none => none
    | some freq =>
      let dx := goTrim (fields.getD 1 [])
      let date := goTrim (fields.getD 2 [])
      let timeStr := goTrim (fields.getD 3 [])
      let comment := fields.getD 4 []
      let spotter := goTrim (fields.getD 5 [])
      let origin0 := goTrim (fields.getD 6 [])
      let origin := if origin0 = [] then fallbackOrigin else origin0
      let r := parseCommentModeReport table comment freq
      let s0 := NewSpot dx spotter freq r.1
      some { s0 with
        Time := pcTime date timeStr,
        Comment := r.2.2.2,
        sourceType := SourceType.upstream,
        SourceNode := origin,
        Report := r.2.1,
        HasReport := r.2.2.1,
        IsHuman := !r.2.2.1,
        TTL := if 0 < hop then (hop % 256).toNat else s0.TTL }

/-- parsePC61 converts a PC61 payload into a Spot (the eighth field, the
user IP, is required but not stored). -/
def parsePC61 (table : List ModeAllocation) (pcTime : GoStr → GoStr → ℤ)
    (fields : List GoStr) (hop : ℤ) (fallbackOrigin : GoStr) : Option Spot :=
  if fields.length < 8 then none
  else match goParseFloat (goTrim (fields.getD 0 [])) with
    | none => none
    | some freq =>
      let dx := goTrim (fields.getD 1 [])
      let date := goTrim (fields.getD 2 [])
      let timeStr := goTrim (fields.getD 3 [])
      let comment := fields.getD 4 []
      let spotter := goTrim (fields.getD 5 [])
      let origin0 := goTrim (fields.getD 6 [])
      let origin := if origin0 = [] then fallbackOrigin else origin0
      let r := parseCommentModeReport table comment freq
      let s0 := NewSpot dx spotter freq r.1
      some { s0 with
        Time := pcTime date timeStr,
        Comment := r.2.2.2,
        sourceType := SourceType.upstream,
        SourceNode := origin,
        Report := r.2.1,
        HasReport := r.2.2.1,
        IsHuman := !r.2.2.1,
        TTL := if 0 < hop then (hop % 256).toNat else s0.TTL }

/-- C10: every Spot produced by the DXSpider PC-frame parsers has
SourceType Upstream, and IsHuman is true exactly when no SNR report was
extracted from the comment (HasReport = false). -/
theorem parsePC_human_upstream (table : List ModeAllocation)
    (pcTime : GoStr → GoStr → ℤ) (fields : List GoStr) (hop : ℤ)
    (fallbackOrigin : GoStr) (s : Spot)
    (h : parsePC11 table pcTime fields hop fallbackOrigin = some s ∨
      parsePC61 table pcTime fields hop fallbackOrigin = some s) :
    s.sourceType = SourceType.upstream ∧ s.IsHuman = !s.HasReport := by
  rcases h with h | h
  · simp only [parsePC11] at h
    split at h
    · exact absurd h (by simp)
    · split at h
      · exact absurd h (by simp)
      · rw [Option.some_inj] at h
        subst h
        exact ⟨rfl, rfl⟩
  · simp only [parsePC61] at h
    split at h
    · exact absurd h (by simp)
    · split at h
      · exact absurd h (by simp)
      · rw [Option.some_inj] at h
        subst h
        exact ⟨rfl, rfl⟩

/-- c10Fields is a concrete PC11 payload: 14025 kHz, comment 599 (no dB
report), spotter W1AAA, origin N0DE. -/
def c10Fields : List GoStr :=
  [gs "14025", gs "K1ABC", gs "11-Oct-2026", gs "1200Z", gs "599",
   gs "W1AAA", gs "N0DE"]

theorem c10_freq : goParseFloat (goTrim (c10Fields.getD 0 [])) = some 14025 := by
  have h0 : goTrim (c10Fields.getD 0 []) = gs "14025" := by decide
  rw [h0]
  have hp : goParseFloatParts (gs "14025") = some (false, gs "14025", [], 0) := by
    decide
  unfold goParseFloat
  rw [hp]
  show some (floatVal false (gs "14025") [] 0) = some 14025
  have hv : floatVal false (gs "14025") [] 0 = 14025 := by
    unfold floatVal
    have hd : digitsVal (gs "14025" ++ []) = 14025 := by decide
    rw [hd]
    norm_num
  rw [hv]

/-- c10Spot is the Spot `parsePC11` produces from `c10Fields`. -/
def c10Spot : Spot :=
  { DXCall := gs "K1ABC", DECall := gs "W1AAA", Frequency := 14025,
    Mode := gs "USB", Report := 0, HasReport := false, Time := 0,
    Comment := gs "599", sourceType := SourceType.upstream,
    SourceNode := gs "N0DE", IsHuman := true, Confidence := [], TTL := 0 }

theorem c10_pc11_eval :
    parsePC11 [] (fun _ _ => 0) c10Fields 0 (gs "FB") = some c10Spot := by
  simp only [parsePC11]
  rw [if_neg (by decide : ¬(c10Fields.length < 7))]
  rw [c10_freq]
  decide

/-- Witness for C10 at the concrete PC11 payload above. -/
theorem parsePC_human_upstream_witness :
    c10Spot.sourceType = SourceType.upstream ∧ c10Spot.IsHuman = !c10Spot.HasReport :=
  parsePC_human_upstream [] (fun _ _ => 0) c10Fields 0 (gs "FB") c10Spot
    (Or.inl c10_pc11_eval)

end GoCluster
